import Mathlib

/-!
Formal model of the Ducker Native 2D scene engine (src/DuckerNative.cpp,
src/source/headers/DuckerNative.h), together with proofs about the scene
store, the dirty-sort batcher, the clip/container stack, line tessellation,
the Gaussian blur kernel, text glyph emission and the uninitialized-engine
behaviour of the external interface.

Modelling conventions:
- C++ `float` values are modelled as exact rationals (ℚ); `int`, `size_t`
  and `uint32_t` are modelled as ℤ/ℕ (id arithmetic is modelled unbounded:
  wrap-around of `uint32_t` counters after 2^32 allocations is not modelled).
- `std::map<K,V>` is modelled as an association list with lookup / insert /
  erase operations (`mfind` / `minsert` / `merase`); the claims under study
  never depend on key-iteration order.
- The process-wide `RendererState* state` pointer is modelled as
  `Option RendererState`: `none` is the uninitialized engine.
- OpenGL, stb_image and stb_truetype are external collaborators: their
  results (program handles, texture handles, decoded images, glyph quads)
  enter the model as explicit oracle parameters.
-/

attribute [local semireducible] Rat.add Rat.mul Rat.inv Rat.sub

set_option maxRecDepth 10000

/-- Vec2 from DuckerNative.h (floats modelled as ℚ). -/
structure Vec2 where
  x : ℚ
  y : ℚ
deriving DecidableEq, Repr, Inhabited

/-- Vec4 from DuckerNative.h. -/
structure Vec4 where
  x : ℚ
  y : ℚ
  z : ℚ
  w : ℚ
deriving DecidableEq, Repr, Inhabited

/-- RectF from DuckerNative.h. -/
structure RectF where
  x : ℚ
  y : ℚ
  w : ℚ
  h : ℚ
deriving DecidableEq, Repr, Inhabited

/-- ObjectType from DuckerNative.cpp (enum class, values 0..4). -/
inductive ObjectType
  | Rect
  | RoundedRect
  | Circle
  | Glyph
  | Line
deriving DecidableEq, Repr, Inhabited

/-- static_cast of ObjectType, as used for the type-derived shader ids. -/
def ObjectType.toUInt : ObjectType → ℕ
  | .Rect => 0
  | .RoundedRect => 1
  | .Circle => 2
  | .Glyph => 3
  | .Line => 4

/-- LineMode from DuckerNative.h (Straight = 0, Curved = 1). -/
inductive LineMode
  | Straight
  | Curved
deriving DecidableEq, Repr, Inhabited

/-- enum comparison on LineMode (the sort comparator uses operator<). -/
def LineMode.toUInt : LineMode → ℕ
  | .Straight => 0
  | .Curved => 1

/-- UniformValue from DuckerNative.cpp: the C++ pair of a UniformType tag and
a raw byte buffer sized to the tag is modelled as a tagged typed payload. -/
inductive UniformValue
  | ufloat (v : ℚ)
  | uvec2 (v : Vec2)
  | uvec3 (v : ℚ × ℚ × ℚ)
  | uvec4 (v : Vec4)
  | uint (v : ℤ)
deriving DecidableEq, Repr, Inhabited

/-- Font from DuckerNative.cpp; the stb_truetype packed char table is an
external collaborator and is not part of the state model. -/
structure Font where
  size : ℚ
  textureId : ℕ
  atlasWidth : ℤ := 4096
  atlasHeight : ℤ := 4096
deriving DecidableEq, Repr, Inhabited

/-- RenderObject from DuckerNative.cpp, with the same defaults as the C++
struct initializers.  The C++ field `end` is called `endPoint` here (`end`
is a Lean keyword); `start` and `endPoint` are default-initialized in C++
(value-initialized Vec2), modelled as ⟨0,0⟩. -/
structure RenderObject where
  id : ℕ := 0
  type : ObjectType := .Rect
  visible : Bool := true
  zIndex : ℤ := 0
  bounds : RectF := ⟨0, 0, 0, 0⟩
  color : Vec4 := ⟨1, 1, 1, 1⟩
  textureId : ℕ := 0
  shaderId : ℕ := 0
  scissorRect : RectF := ⟨0, 0, 0, 0⟩
  uvRect : RectF := ⟨0, 0, 1, 1⟩
  borderWidth : ℚ := 0
  borderColor : Vec4 := ⟨0, 0, 0, 0⟩
  uniforms : List (String × UniformValue) := []
  elevation : ℤ := 0
  rotation : ℚ := 0
  rotationOrigin : Vec2 := ⟨1/2, 1/2⟩
  start : Vec2 := ⟨0, 0⟩
  endPoint : Vec2 := ⟨0, 0⟩
  controlPoints : List Vec2 := []
  lineWidth : ℚ := 1
  lineMode : LineMode := .Straight
  triCount : ℤ := 2
deriving DecidableEq, Repr, Inhabited

/-- RendererState from DuckerNative.cpp (the GPU-side handles — VAO/VBO,
FBOs, blur programs — live in OpenGL and are not part of the scene model;
`shaders` maps shader id to the linked GL program handle). -/
structure RendererState where
  screenWidth : ℤ := 0
  screenHeight : ℤ := 0
  nextCustomShaderId : ℕ := 100
  shaders : List (ℕ × ℕ) := []
  nextFontId : ℕ := 1
  fonts : List (ℕ × Font) := []
  objects : List RenderObject := []
  objectIdToIndex : List (ℕ × ℕ) := []
  nextObjectId : ℕ := 1
  needsSort : Bool := false
  scissorStack : List RectF := []
  containerStack : List Vec2 := []
deriving DecidableEq, Repr, Inhabited

/-- Lookup in the id→value association list (std::map::find). -/
def mfind (m : List (ℕ × ℕ)) (k : ℕ) : Option ℕ :=
  match m with
  | [] => none
  | (k', v) :: rest => if k' = k then some v else mfind rest k

/-- Erase a key (std::map::erase). -/
def merase (m : List (ℕ × ℕ)) (k : ℕ) : List (ℕ × ℕ) :=
  match m with
  | [] => []
  | (k', v) :: rest => if k' = k then merase rest k else (k', v) :: merase rest k

/-- Insert-or-assign (std::map::operator[] followed by assignment). -/
def minsert (m : List (ℕ × ℕ)) (k v : ℕ) : List (ℕ × ℕ) :=
  (k, v) :: merase m k

theorem mfind_merase (m : List (ℕ × ℕ)) (k k' : ℕ) :
    mfind (merase m k) k' = if k' = k then none else mfind m k' := by
  induction m with
  | nil => simp [merase, mfind]
  | cons p rest ih =>
    obtain ⟨a, b⟩ := p
    by_cases hak : a = k
    · subst hak
      rw [show merase ((a, b) :: rest) a = merase rest a by simp [merase], ih]
      by_cases hk' : k' = a
      · simp [hk']
      · have h2 : ¬a = k' := fun h => hk' h.symm
        simp [mfind, hk', h2]
    · by_cases hak' : a = k'
      · subst hak'
        simp [merase, mfind, hak]
      · simp [merase, mfind, hak, hak', ih]

theorem mfind_minsert (m : List (ℕ × ℕ)) (k v k' : ℕ) :
    mfind (minsert m k v) k' = if k' = k then some v else mfind m k' := by
  unfold minsert
  by_cases h : k' = k
  · subst h
    simp [mfind]
  · have h2 : ¬k = k' := fun hh => h hh.symm
    simp [mfind, h, h2, mfind_merase]

/-- The engine pointer: `none` models `state == nullptr` (before
DuckerNative_Initialize / after DuckerNative_Shutdown). -/
abbrev Engine : Type := Option RendererState

/-- The RendererState built by DuckerNative_Initialize(screenWidth,
screenHeight): built-in shader programs 1..5 (their GL program handles are
external; any nonzero handles are faithful), empty pools, and the screen
size installed via DuckerNative_SetScreenSize. -/
def initRendererState (screenWidth screenHeight : ℤ) : RendererState :=
  { screenWidth := screenWidth
    screenHeight := screenHeight
    shaders := [(1, 1), (2, 2), (3, 3), (4, 4), (5, 5)] }

/-- AddObjectInternal (state-level body, runs when state != nullptr):
captures the top of the scissor stack (or the full screen when the stack is
empty), assigns the next object id, appends to the pool, records the
id→index entry and marks the pool dirty.  Returns the new id. -/
def addObj (s : RendererState) (obj0 : RenderObject) : RendererState × ℕ :=
  let obj1 : RenderObject :=
    { obj0 with scissorRect :=
        match s.scissorStack with
        | top :: _ => top
        | [] => ⟨0, 0, (s.screenWidth : ℚ), (s.screenHeight : ℚ)⟩ }
  let obj : RenderObject := { obj1 with id := s.nextObjectId }
  let newIndex := s.objects.length
  ({ s with
      objectIdToIndex := minsert s.objectIdToIndex obj.id newIndex
      objects := s.objects ++ [obj]
      nextObjectId := s.nextObjectId + 1
      needsSort := true }, obj.id)

/-- AddObjectInternal from DuckerNative.cpp: returns 0 and does nothing when
the engine is uninitialized. -/
def AddObjectInternal (e : Engine) (obj : RenderObject) : Engine × ℕ :=
  match e with
  | none => (none, 0)
  | some s =>
    let r := addObj s obj
    (some r.1, r.2)

/-- DuckerNative_RemoveObject (state-level body): if the id is mapped,
swap-with-last removal — when the slot is not the last one, the last object
(objects.back()) is copied into it and its id→index entry remapped — then
the last slot is popped (objects.pop_back()) and the removed id's map entry
erased; the pop/erase pair of the C++ code is written out in each branch of
the conditional.  Note: `needsSort` is NOT touched. -/
def removeObjectS (s : RendererState) (objectId : ℕ) : RendererState :=
  match mfind s.objectIdToIndex objectId with
  | none => s
  | some indexToRemove =>
    if 1 < s.objects.length ∧ indexToRemove < s.objects.length - 1 then
      let lastObject := s.objects.getLastD default
      { s with
          objects := (s.objects.set indexToRemove lastObject).dropLast
          objectIdToIndex :=
            merase (minsert s.objectIdToIndex lastObject.id indexToRemove) objectId }
    else
      { s with
          objects := s.objects.dropLast
          objectIdToIndex := merase s.objectIdToIndex objectId }

/-- DuckerNative_RemoveObject from DuckerNative.cpp. -/
def DuckerNative_RemoveObject (e : Engine) (objectId : ℕ) : Engine :=
  match e with
  | none => none
  | some s => some (removeObjectS s objectId)

/-- FindObject from DuckerNative.cpp: nullptr when the engine is
uninitialized or the id is unmapped, otherwise a reference to
objects[objectIdToIndex[id]]. -/
def FindObject (e : Engine) (id : ℕ) : Option RenderObject :=
  match e with
  | none => none
  | some s =>
    match mfind s.objectIdToIndex id with
    | some index => some (s.objects.getD index default)
    | none => none

/-- DuckerNative_Clear: drops all objects and resets the clip/container
stacks. -/
def DuckerNative_Clear (e : Engine) : Engine :=
  match e with
  | none => none
  | some s =>
    some { s with
      objects := []
      objectIdToIndex := []
      containerStack := []
      scissorStack := [] }

/-- The container offset used by DuckerNative_BeginContainer: the top of the
container stack, or (0,0) when no container is open.  Stacks are modelled
with the top of the stack at the head of the list. -/
def containerOffset (s : RendererState) : Vec2 :=
  match s.containerStack with
  | top :: _ => top
  | [] => ⟨0, 0⟩

/-- The scissor rectangle pushed by DuckerNative_BeginContainer: the bounds
translated by the container offset, intersected with the parent scissor
rectangle when one exists (max of origins, min of right/bottom edges minus
the new origin), with width/height clamped to ≥ 0. -/
def newScissorRect (s : RendererState) (bounds : RectF) : RectF :=
  let offset := containerOffset s
  let newScissor0 : RectF := ⟨bounds.x + offset.x, bounds.y + offset.y, bounds.w, bounds.h⟩
  let newScissor1 : RectF :=
    match s.scissorStack with
    | parentScissor :: _ =>
      let r1 := newScissor0.x + newScissor0.w
      let r2 := parentScissor.x + parentScissor.w
      let b1 := newScissor0.y + newScissor0.h
      let b2 := parentScissor.y + parentScissor.h
      let nx := max newScissor0.x parentScissor.x
      let ny := max newScissor0.y parentScissor.y
      ⟨nx, ny, min r1 r2 - nx, min b1 b2 - ny⟩
    | [] => newScissor0
  { newScissor1 with w := max 0 newScissor1.w, h := max 0 newScissor1.h }

/-- DuckerNative_BeginContainer (state-level body): pushes the intersected,
clamped scissor rectangle and the translated origin. -/
def beginContainerS (s : RendererState) (bounds : RectF) : RendererState :=
  let offset := containerOffset s
  let newOffset : Vec2 := ⟨bounds.x + offset.x, bounds.y + offset.y⟩
  { s with
      containerStack := newOffset :: s.containerStack
      scissorStack := newScissorRect s bounds :: s.scissorStack }

/-- DuckerNative_BeginContainer from DuckerNative.cpp. -/
def DuckerNative_BeginContainer (e : Engine) (bounds : RectF) : Engine :=
  match e with
  | none => none
  | some s => some (beginContainerS s bounds)

/-- DuckerNative_EndContainer (state-level body): pops both stacks; no-op
when the container stack is empty. -/
def endContainerS (s : RendererState) : RendererState :=
  if s.containerStack.isEmpty then s
  else
    { s with
        containerStack := s.containerStack.tail
        scissorStack := s.scissorStack.tail }

/-- DuckerNative_EndContainer from DuckerNative.cpp. -/
def DuckerNative_EndContainer (e : Engine) : Engine :=
  match e with
  | none => none
  | some s => some (endContainerS s)

theorem getD_concat_length {α : Type _} (l : List α) (a d : α) :
    (l ++ [a]).getD l.length d = a := by
  rw [List.getD_eq_getElem?_getD, List.getElem?_append_right (Nat.le_refl _)]
  simp

theorem getD_append_lt {α : Type _} (l l' : List α) (d : α) (i : ℕ) (h : i < l.length) :
    (l ++ l').getD i d = l.getD i d :=
  List.getD_append l l' d i h

theorem getD_set_self {α : Type _} (l : List α) (a d : α) (i : ℕ) (h : i < l.length) :
    (l.set i a).getD i d = a := by
  simp [List.getD_eq_getElem?_getD, List.getElem?_set_self', h]

theorem getD_set_ne {α : Type _} (l : List α) (a d : α) (i j : ℕ) (h : i ≠ j) :
    (l.set i a).getD j d = l.getD j d := by
  simp [List.getD_eq_getElem?_getD, List.getElem?_set_ne h]

theorem getD_dropLast_lt {α : Type _} (l : List α) (d : α) (i : ℕ) (h : i < l.length - 1) :
    l.dropLast.getD i d = l.getD i d := by
  have h1 : i < l.dropLast.length := by simp [List.length_dropLast]; omega
  have h2 : i < l.length := by omega
  rw [List.getD_eq_getElem?_getD, List.getD_eq_getElem?_getD,
      List.getElem?_eq_getElem h1, List.getElem?_eq_getElem h2]
  simp [List.getElem_dropLast]

theorem getLastD_eq_getD {α : Type _} (l : List α) (d : α) (_h : l ≠ []) :
    l.getLastD d = l.getD (l.length - 1) d := by
  rw [List.getLastD_eq_getLast?, List.getLast?_eq_getElem?, List.getD_eq_getElem?_getD]

/-- Scene-store invariant: objectIdToIndex is exactly the id→slot graph of
the object pool, and every pooled id is below nextObjectId. -/
def StoreInv (s : RendererState) : Prop :=
  (∀ id ix, mfind s.objectIdToIndex id = some ix ↔
      ix < s.objects.length ∧ (s.objects.getD ix default).id = id) ∧
  (∀ ix, ix < s.objects.length → (s.objects.getD ix default).id < s.nextObjectId)

/-- An id is live when the id→index map has an entry for it. -/
def liveId (s : RendererState) (id : ℕ) : Prop :=
  mfind s.objectIdToIndex id ≠ none

instance (s : RendererState) (id : ℕ) : Decidable (liveId s id) := by
  unfold liveId
  infer_instance

/-- The pool/map/counter shape of `addObj`. -/
theorem addObj_eq (s : RendererState) (o : RenderObject) :
    ∃ obj : RenderObject, obj.id = s.nextObjectId ∧
      (addObj s o).1 = { s with
          objectIdToIndex := minsert s.objectIdToIndex s.nextObjectId s.objects.length
          objects := s.objects ++ [obj]
          nextObjectId := s.nextObjectId + 1
          needsSort := true } ∧
      (addObj s o).2 = s.nextObjectId :=
  ⟨_, rfl, rfl, rfl⟩

theorem addObj_spec (s : RendererState) (o : RenderObject) (hinv : StoreInv s) :
    StoreInv (addObj s o).1 ∧
    (addObj s o).1.objects.length = s.objects.length + 1 ∧
    (addObj s o).1.nextObjectId = s.nextObjectId + 1 ∧
    (addObj s o).2 = s.nextObjectId ∧
    (∀ id, liveId (addObj s o).1 id ↔ liveId s id ∨ id = s.nextObjectId) := by
  obtain ⟨obj, hobjid, heq, hret⟩ := addObj_eq s o
  obtain ⟨hinv1, hinv2⟩ := hinv
  rw [heq]
  refine ⟨⟨?_, ?_⟩, by simp, by simp, hret, ?_⟩
  · intro id ix
    simp only [mfind_minsert, List.length_append, List.length_cons, List.length_nil]
    by_cases hid : id = s.nextObjectId
    · subst hid
      simp only [if_pos rfl]
      constructor
      · rintro ⟨rfl⟩
        refine ⟨by omega, ?_⟩
        rw [getD_concat_length]
        exact hobjid
      · rintro ⟨hix, hgd⟩
        by_cases hlt : ix < s.objects.length
        · rw [getD_append_lt _ _ _ _ hlt] at hgd
          have := hinv2 ix hlt
          omega
        · have : ix = s.objects.length := by omega
          subst this
          rfl
    · rw [if_neg hid, hinv1 id ix]
      constructor
      · rintro ⟨hix, hgd⟩
        exact ⟨by omega, by rw [getD_append_lt _ _ _ _ hix]; exact hgd⟩
      · rintro ⟨hix, hgd⟩
        by_cases hlt : ix < s.objects.length
        · rw [getD_append_lt _ _ _ _ hlt] at hgd
          exact ⟨hlt, hgd⟩
        · have : ix = s.objects.length := by omega
          subst this
          rw [getD_concat_length] at hgd
          exact absurd (hgd.symm.trans hobjid) hid
  · intro ix hix
    dsimp only at hix ⊢
    simp only [List.length_append, List.length_cons, List.length_nil] at hix
    by_cases hlt : ix < s.objects.length
    · rw [getD_append_lt _ _ _ _ hlt]
      have := hinv2 ix hlt
      omega
    · have : ix = s.objects.length := by omega
      subst this
      rw [getD_concat_length, hobjid]
      omega
  · intro id
    unfold liveId
    simp only [mfind_minsert]
    by_cases hid : id = s.nextObjectId
    · simp [hid]
    · simp [hid]

theorem removeObjectS_spec (s : RendererState) (r : ℕ) (hinv : StoreInv s) :
    StoreInv (removeObjectS s r) ∧
    (removeObjectS s r).nextObjectId = s.nextObjectId ∧
    (∀ id, liveId (removeObjectS s r) id ↔ liveId s id ∧ id ≠ r) ∧
    (removeObjectS s r).objects.length =
      (if liveId s r then s.objects.length - 1 else s.objects.length) := by
  obtain ⟨hinv1, hinv2⟩ := hinv
  cases hfr : mfind s.objectIdToIndex r with
  | none =>
    have hrs : removeObjectS s r = s := by
      unfold removeObjectS
      rw [hfr]
    have hnl : ¬liveId s r := by simp [liveId, hfr]
    rw [hrs, if_neg hnl]
    refine ⟨⟨hinv1, hinv2⟩, rfl, ?_, rfl⟩
    intro id
    by_cases hidr : id = r
    · subst hidr
      simp [hnl]
    · simp [hidr]
  | some ix =>
    have hlive : liveId s r := by simp [liveId, hfr]
    obtain ⟨hix, hid⟩ := (hinv1 r ix).mp hfr
    by_cases hswap : 1 < s.objects.length ∧ ix < s.objects.length - 1
    · -- swap-with-last branch
      have hrs : removeObjectS s r =
          { s with
              objects := (s.objects.set ix (s.objects.getLastD default)).dropLast
              objectIdToIndex :=
                merase (minsert s.objectIdToIndex (s.objects.getLastD default).id ix) r } := by
        unfold removeObjectS
        rw [hfr]
        simp only [if_pos hswap]
      have hne : s.objects ≠ [] := by
        intro hempty
        rw [hempty] at hix
        simp at hix
      have hlastD : s.objects.getLastD default = s.objects.getD (s.objects.length - 1) default :=
        getLastD_eq_getD _ _ hne
      set last := s.objects.getLastD default with hlastdef
      have hlastmap : mfind s.objectIdToIndex last.id = some (s.objects.length - 1) := by
        rw [hinv1]
        exact ⟨by omega, by rw [← hlastD]⟩
      have hlastne : last.id ≠ r := by
        intro hcontra
        rw [hcontra, hfr] at hlastmap
        have : ix = s.objects.length - 1 := by
          injection hlastmap
        omega
      have hmap' : ∀ id, mfind (removeObjectS s r).objectIdToIndex id =
          if id = r then none
          else if id = last.id then some ix
          else mfind s.objectIdToIndex id := by
        intro id
        rw [hrs]
        dsimp only
        rw [mfind_merase, mfind_minsert]
      have hlen : (removeObjectS s r).objects.length = s.objects.length - 1 := by
        rw [hrs]
        dsimp only
        rw [List.length_dropLast, List.length_set]
      have hget : ∀ jx, jx < s.objects.length - 1 →
          (removeObjectS s r).objects.getD jx default =
            (if jx = ix then last else s.objects.getD jx default) := by
        intro jx hjx
        rw [hrs]
        dsimp only
        rw [getD_dropLast_lt _ _ _ (by rw [List.length_set]; omega)]
        by_cases hji : jx = ix
        · subst hji
          rw [if_pos rfl, getD_set_self _ _ _ _ (by omega)]
        · rw [if_neg hji, getD_set_ne _ _ _ _ _ (fun h => hji h.symm)]
      refine ⟨⟨?_, ?_⟩, by rw [hrs], ?_, ?_⟩
      · intro id jx
        rw [hmap', hlen]
        by_cases hidr : id = r
        · rw [if_pos hidr]
          constructor
          · intro h
            exact absurd h (by simp)
          · rintro ⟨hjx, hgd⟩
            rw [hget jx hjx] at hgd
            by_cases hji : jx = ix
            · rw [if_pos hji] at hgd
              exact absurd (hgd.trans hidr) hlastne
            · rw [if_neg hji] at hgd
              have h2 := (hinv1 id jx).mpr ⟨by omega, hgd⟩
              rw [hidr, hfr] at h2
              have : ix = jx := Option.some.inj h2
              omega
        · rw [if_neg hidr]
          by_cases hidl : id = last.id
          · subst hidl
            rw [if_pos rfl]
            constructor
            · rintro ⟨rfl⟩
              refine ⟨by omega, ?_⟩
              rw [hget ix (by omega), if_pos rfl]
            · rintro ⟨hjx, hgd⟩
              rw [hget jx hjx] at hgd
              by_cases hji : jx = ix
              · rw [hji]
              · rw [if_neg hji] at hgd
                have := (hinv1 last.id jx).mpr ⟨by omega, hgd⟩
                rw [hlastmap] at this
                have : jx = s.objects.length - 1 := by injection this with h; omega
                omega
          · rw [if_neg hidl]
            constructor
            · intro h
              obtain ⟨hjx, hgd⟩ := (hinv1 id jx).mp h
              have hjix : jx ≠ ix := by
                intro hcontra
                rw [hcontra] at hgd
                exact hidr (hgd ▸ hid ▸ rfl)
              have hjlast : jx ≠ s.objects.length - 1 := by
                intro hcontra
                apply hidl
                rw [← hgd, hcontra, ← hlastD]
              refine ⟨by omega, ?_⟩
              rw [hget jx (by omega), if_neg hjix]
              exact hgd
            · rintro ⟨hjx, hgd⟩
              rw [hget jx hjx] at hgd
              by_cases hji : jx = ix
              · rw [if_pos hji] at hgd
                exact absurd hgd (fun h => hidl h.symm)
              · rw [if_neg hji] at hgd
                exact (hinv1 id jx).mpr ⟨by omega, hgd⟩
      · intro jx hjx
        rw [hlen] at hjx
        rw [hget jx hjx, hrs]
        dsimp only
        by_cases hji : jx = ix
        · rw [if_pos hji, hlastD]
          exact hinv2 _ (by omega)
        · rw [if_neg hji]
          exact hinv2 _ (by omega)
      · intro id
        unfold liveId
        rw [hmap']
        by_cases hidr : id = r
        · subst hidr
          simp [liveId, hfr]
        · by_cases hidl : id = last.id
          · subst hidl
            simp only [if_neg hidr, if_pos rfl]
            simp [liveId, hlastmap, hidr]
          · simp only [if_neg hidr, if_neg hidl]
            simp [liveId, hidr]
      · rw [hlen, if_pos hlive]
    · -- no swap: the removed slot is the last one
      have hixlast : ix = s.objects.length - 1 := by omega
      have hrs : removeObjectS s r =
          { s with
              objects := s.objects.dropLast
              objectIdToIndex := merase s.objectIdToIndex r } := by
        unfold removeObjectS
        rw [hfr]
        simp only [if_neg hswap]
      have hmap' : ∀ id, mfind (removeObjectS s r).objectIdToIndex id =
          if id = r then none else mfind s.objectIdToIndex id := by
        intro id
        rw [hrs]
        dsimp only
        rw [mfind_merase]
      have hlen : (removeObjectS s r).objects.length = s.objects.length - 1 := by
        rw [hrs]
        dsimp only
        rw [List.length_dropLast]
      have hget : ∀ jx, jx < s.objects.length - 1 →
          (removeObjectS s r).objects.getD jx default = s.objects.getD jx default := by
        intro jx hjx
        rw [hrs]
        dsimp only
        exact getD_dropLast_lt _ _ _ hjx
      refine ⟨⟨?_, ?_⟩, by rw [hrs], ?_, ?_⟩
      · intro id jx
        rw [hmap', hlen]
        by_cases hidr : id = r
        · rw [if_pos hidr]
          constructor
          · intro h
            exact absurd h (by simp)
          · rintro ⟨hjx, hgd⟩
            rw [hget jx hjx] at hgd
            have h2 := (hinv1 id jx).mpr ⟨by omega, hgd⟩
            rw [hidr, hfr] at h2
            have : ix = jx := Option.some.inj h2
            omega
        · rw [if_neg hidr]
          constructor
          · intro h
            obtain ⟨hjx, hgd⟩ := (hinv1 id jx).mp h
            have hjix : jx ≠ ix := by
              intro hcontra
              rw [hcontra] at hgd
              exact hidr (hgd ▸ hid ▸ rfl)
            refine ⟨by omega, ?_⟩
            rw [hget jx (by omega)]
            exact hgd
          · rintro ⟨hjx, hgd⟩
            rw [hget jx hjx] at hgd
            exact (hinv1 id jx).mpr ⟨by omega, hgd⟩
      · intro jx hjx
        rw [hlen] at hjx
        rw [hget jx hjx, hrs]
        dsimp only
        exact hinv2 _ (by omega)
      · intro id
        unfold liveId
        rw [hmap']
        by_cases hidr : id = r
        · subst hidr
          simp [liveId, hfr]
        · simp [hidr]
      · rw [hlen, if_pos hlive]

/-- A sequence of AddObjectInternal calls on an initialized engine (every
shape-creation call of the external interface funnels into
AddObjectInternal, so quantifying over the RenderObjects passed to it covers
any sequence of Add calls). -/
def addMany (s : RendererState) (objs : List RenderObject) : RendererState :=
  objs.foldl (fun t o => (addObj t o).1) s

/-- A sequence of DuckerNative_RemoveObject calls on an initialized engine. -/
def removeMany (s : RendererState) (rs : List ℕ) : RendererState :=
  rs.foldl removeObjectS s

theorem addMany_spec (objs : List RenderObject) :
    ∀ s : RendererState, StoreInv s →
      StoreInv (addMany s objs) ∧
      (addMany s objs).objects.length = s.objects.length + objs.length ∧
      (addMany s objs).nextObjectId = s.nextObjectId + objs.length ∧
      (∀ id, liveId (addMany s objs) id ↔
        liveId s id ∨ (s.nextObjectId ≤ id ∧ id < s.nextObjectId + objs.length)) := by
  induction objs with
  | nil =>
    intro s hinv
    refine ⟨hinv, by simp [addMany], by simp [addMany], ?_⟩
    intro id
    simp only [addMany, List.foldl_nil, List.length_nil]
    constructor
    · exact .inl
    · rintro (h | ⟨hl, hr⟩)
      · exact h
      · omega
  | cons o os ih =>
    intro s hinv
    have h1 := addObj_spec s o hinv
    have h2 := ih (addObj s o).1 h1.1
    have hstep : addMany s (o :: os) = addMany (addObj s o).1 os := rfl
    refine ⟨hstep ▸ h2.1, ?_, ?_, ?_⟩
    · rw [hstep, h2.2.1, h1.2.1]
      simp only [List.length_cons]
      omega
    · rw [hstep, h2.2.2.1, h1.2.2.1]
      simp only [List.length_cons]
      omega
    · intro id
      rw [hstep]
      have ha := h2.2.2.2 id
      have hb := h1.2.2.2.2 id
      have hn := h1.2.2.1
      rw [ha]
      simp only [List.length_cons]
      constructor
      · rintro (h | ⟨hl, hr⟩)
        · rcases hb.mp h with h' | rfl
          · exact .inl h'
          · right
            omega
        · right
          rw [hn] at hl hr
          omega
      · rintro (h | ⟨hl, hr⟩)
        · exact .inl (hb.mpr (.inl h))
        · by_cases hcase : id = s.nextObjectId
          · exact .inl (hb.mpr (.inr hcase))
          · right
            rw [hn]
            omega

theorem removeMany_spec (rs : List ℕ) :
    ∀ s : RendererState, StoreInv s → rs.Nodup → (∀ r ∈ rs, liveId s r) →
      StoreInv (removeMany s rs) ∧
      (removeMany s rs).objects.length = s.objects.length - rs.length ∧
      (∀ id, liveId (removeMany s rs) id ↔ liveId s id ∧ id ∉ rs) := by
  induction rs with
  | nil =>
    intro s hinv _ _
    exact ⟨hinv, by simp [removeMany], fun id => by simp [removeMany]⟩
  | cons r rs ih =>
    intro s hinv hnd hlive
    obtain ⟨hrnotin, hndtail⟩ := List.nodup_cons.mp hnd
    have h1 := removeObjectS_spec s r hinv
    have hlr : liveId s r := hlive r (by simp)
    have hlen1 : (removeObjectS s r).objects.length = s.objects.length - 1 := by
      rw [h1.2.2.2, if_pos hlr]
    have hlive1 : ∀ r' ∈ rs, liveId (removeObjectS s r) r' := by
      intro r' hr'
      refine (h1.2.2.1 r').mpr ⟨hlive r' (by simp [hr']), ?_⟩
      intro hcontra
      rw [hcontra] at hr'
      exact hrnotin hr'
    have h2 := ih (removeObjectS s r) h1.1 hndtail hlive1
    have hstep : removeMany s (r :: rs) = removeMany (removeObjectS s r) rs := rfl
    refine ⟨hstep ▸ h2.1, ?_, ?_⟩
    · rw [hstep, h2.2.1, hlen1]
      simp only [List.length_cons]
      omega
    · intro id
      rw [hstep, h2.2.2 id, h1.2.2.1 id]
      simp only [List.mem_cons]
      tauto

theorem storeInv_init (W H : ℤ) : StoreInv (initRendererState W H) := by
  constructor
  · intro id ix
    simp [initRendererState, mfind]
  · intro ix h
    simp [initRendererState] at h

theorem liveId_init (W H : ℤ) (id : ℕ) : ¬liveId (initRendererState W H) id := by
  simp [liveId, initRendererState, mfind]

/-- The scene reached from a freshly initialized engine by one Add call per
element of `objs` followed by one RemoveObject call per element of `rs`. -/
def sceneAfter (W H : ℤ) (objs : List RenderObject) (rs : List ℕ) : RendererState :=
  removeMany (addMany (initRendererState W H) objs) rs

/-- C1: Scene Store id/slot integrity.  For any sequence of Add calls
followed by removal of an arbitrary subset of the issued ids (the issued ids
are 1..objs.length), FindObject returns a valid reference — the slot the
id→index map points to holds the object carrying that id — for every
remaining id, and a null reference for every removed id, and the pool size
equals the number of adds minus the number of removes.  In particular (take
a removed non-last id and a remaining formerly-last id) lookups resolve to
moved slots correctly after swap-with-last removal. -/
theorem c1_store_integrity (W H : ℤ) (objs : List RenderObject) (rs : List ℕ)
    (hnd : rs.Nodup) (hsub : ∀ r ∈ rs, 1 ≤ r ∧ r ≤ objs.length) :
    (∀ id, 1 ≤ id → id ≤ objs.length → id ∉ rs →
      ∃ ix, mfind (sceneAfter W H objs rs).objectIdToIndex id = some ix ∧
        ix < (sceneAfter W H objs rs).objects.length ∧
        ((sceneAfter W H objs rs).objects.getD ix default).id = id ∧
        FindObject (some (sceneAfter W H objs rs)) id =
          some ((sceneAfter W H objs rs).objects.getD ix default)) ∧
    (∀ id ∈ rs, FindObject (some (sceneAfter W H objs rs)) id = none) ∧
    (sceneAfter W H objs rs).objects.length = objs.length - rs.length := by
  have hadd := addMany_spec objs (initRendererState W H) (storeInv_init W H)
  have hlivechar : ∀ id, liveId (addMany (initRendererState W H) objs) id ↔
      1 ≤ id ∧ id ≤ objs.length := by
    intro id
    rw [hadd.2.2.2 id]
    have hni := liveId_init W H id
    have : (initRendererState W H).nextObjectId = 1 := rfl
    rw [this]
    constructor
    · rintro (h | ⟨hl, hr⟩)
      · exact absurd h hni
      · omega
    · intro ⟨hl, hr⟩
      right
      omega
  have hliversall : ∀ r ∈ rs, liveId (addMany (initRendererState W H) objs) r := by
    intro r hr
    exact (hlivechar r).mpr (hsub r hr)
  have hrem := removeMany_spec rs (addMany (initRendererState W H) objs) hadd.1 hnd hliversall
  have hscene : sceneAfter W H objs rs = removeMany (addMany (initRendererState W H) objs) rs := rfl
  refine ⟨?_, ?_, ?_⟩
  · intro id h1 h2 h3
    have hl : liveId (sceneAfter W H objs rs) id := by
      rw [hscene, hrem.2.2 id]
      exact ⟨(hlivechar id).mpr ⟨h1, h2⟩, h3⟩
    unfold liveId at hl
    obtain ⟨ix, hm⟩ : ∃ ix, mfind (sceneAfter W H objs rs).objectIdToIndex id = some ix := by
      cases hmm : mfind (sceneAfter W H objs rs).objectIdToIndex id with
      | none => exact absurd hmm hl
      | some ix => exact ⟨ix, rfl⟩
    have hinv := hscene ▸ hrem.1
    obtain ⟨hix, hid⟩ := (hinv.1 id ix).mp hm
    refine ⟨ix, hm, hix, hid, ?_⟩
    simp only [FindObject, hm]
  · intro id hid
    have hnl : ¬liveId (sceneAfter W H objs rs) id := by
      rw [hscene, hrem.2.2 id]
      rintro ⟨_, hcontra⟩
      exact hcontra hid
    unfold liveId at hnl
    have hm : mfind (sceneAfter W H objs rs).objectIdToIndex id = none := by
      by_contra hc
      exact hnl hc
    simp only [FindObject, hm]
  · rw [hscene, hrem.2.1, hadd.2.1]
    have : (initRendererState W H).objects.length = 0 := rfl
    omega

/-- C1 witness: three Add calls, then removal of id 1 (a non-last slot, so
the swap-with-last path runs); every remaining id still resolves through the
remapped id→index table and the pool size is 3 - 1. -/
theorem c1_store_integrity_witness :
    ([1] : List ℕ).Nodup ∧
    (∀ r ∈ ([1] : List ℕ), 1 ≤ r ∧ r ≤ ([{}, {}, {}] : List RenderObject).length) ∧
    ((∀ id, 1 ≤ id → id ≤ ([{}, {}, {}] : List RenderObject).length → id ∉ ([1] : List ℕ) →
      ∃ ix, mfind (sceneAfter 800 600 [{}, {}, {}] [1]).objectIdToIndex id = some ix ∧
        ix < (sceneAfter 800 600 [{}, {}, {}] [1]).objects.length ∧
        ((sceneAfter 800 600 [{}, {}, {}] [1]).objects.getD ix default).id = id ∧
        FindObject (some (sceneAfter 800 600 [{}, {}, {}] [1])) id =
          some ((sceneAfter 800 600 [{}, {}, {}] [1]).objects.getD ix default)) ∧
    (∀ id ∈ ([1] : List ℕ), FindObject (some (sceneAfter 800 600 [{}, {}, {}] [1])) id = none) ∧
    (sceneAfter 800 600 [{}, {}, {}] [1]).objects.length =
      ([{}, {}, {}] : List RenderObject).length - ([1] : List ℕ).length) :=
  ⟨by decide, by decide,
    c1_store_integrity 800 600 [{}, {}, {}] [1] (by decide) (by decide)⟩

/-- C10: implicit default clip.  An object inserted while no container is
open (empty scissor stack) gets the full-screen rectangle
{0, 0, screenWidth, screenHeight} as its permanent clip at insertion time,
and neither DuckerNative_BeginContainer nor DuckerNative_EndContainer ever
touches the objects already in the pool. -/
theorem c10_default_clip :
    (∀ (s : RendererState) (obj : RenderObject), s.scissorStack = [] →
      ((addObj s obj).1.objects.getLastD default).scissorRect =
        ⟨0, 0, (s.screenWidth : ℚ), (s.screenHeight : ℚ)⟩) ∧
    (∀ (s : RendererState) (bounds : RectF),
      (beginContainerS s bounds).objects = s.objects) ∧
    (∀ s : RendererState, (endContainerS s).objects = s.objects) := by
  refine ⟨?_, ?_, ?_⟩
  · intro s obj hempty
    unfold addObj
    rw [hempty]
    simp
  · intro s bounds
    rfl
  · intro s
    unfold endContainerS
    split <;> rfl

/-- C10 witness: a default object added to a fresh 800×600 engine carries
the full-screen clip. -/
theorem c10_default_clip_witness :
    (initRendererState 800 600).scissorStack = [] ∧
    ((addObj (initRendererState 800 600) {}).1.objects.getLastD default).scissorRect =
      ⟨0, 0, ((initRendererState 800 600).screenWidth : ℚ),
        ((initRendererState 800 600).screenHeight : ℚ)⟩ :=
  ⟨rfl, c10_default_clip.1 (initRendererState 800 600) {} rfl⟩

/-- One clip/container-stack call of the external interface. -/
inductive ClipOp
  | beginC (bounds : RectF)
  | endC
deriving DecidableEq, Repr

/-- Run a sequence of DuckerNative_BeginContainer / DuckerNative_EndContainer
calls on an initialized engine. -/
def runClipOps (s : RendererState) (ops : List ClipOp) : RendererState :=
  ops.foldl
    (fun t op =>
      match op with
      | .beginC b => beginContainerS t b
      | .endC => endContainerS t) s

/-- Invariant of the scissor stack (top of stack at the head): every
rectangle is no wider/taller than each of its ancestors, and all
widths/heights are ≥ 0. -/
def ClipStackOK (stack : List RectF) : Prop :=
  List.Pairwise (fun a b => a.w ≤ b.w ∧ a.h ≤ b.h) stack ∧
  ∀ r ∈ stack, 0 ≤ r.w ∧ 0 ≤ r.h


theorem newScissorRect_nonneg (s : RendererState) (bounds : RectF) :
    0 ≤ (newScissorRect s bounds).w ∧ 0 ≤ (newScissorRect s bounds).h := by
  unfold newScissorRect
  cases s.scissorStack with
  | nil => exact ⟨le_max_left 0 _, le_max_left 0 _⟩
  | cons parent rest => exact ⟨le_max_left 0 _, le_max_left 0 _⟩

theorem newScissorRect_le_parent (s : RendererState) (bounds : RectF)
    (parent : RectF) (rest : List RectF) (hss : s.scissorStack = parent :: rest)
    (hwp : 0 ≤ parent.w) (hhp : 0 ≤ parent.h) :
    (newScissorRect s bounds).w ≤ parent.w ∧ (newScissorRect s bounds).h ≤ parent.h := by
  unfold newScissorRect
  rw [hss]
  dsimp only
  constructor
  · apply max_le hwp
    have h1 : min (bounds.x + (containerOffset s).x + bounds.w) (parent.x + parent.w) ≤
        parent.x + parent.w := min_le_right _ _
    have h2 : parent.x ≤ max (bounds.x + (containerOffset s).x) parent.x := le_max_right _ _
    linarith
  · apply max_le hhp
    have h1 : min (bounds.y + (containerOffset s).y + bounds.h) (parent.y + parent.h) ≤
        parent.y + parent.h := min_le_right _ _
    have h2 : parent.y ≤ max (bounds.y + (containerOffset s).y) parent.y := le_max_right _ _
    linarith

theorem clipStackOK_begin (s : RendererState) (bounds : RectF)
    (hok : ClipStackOK s.scissorStack) :
    ClipStackOK (beginContainerS s bounds).scissorStack := by
  obtain ⟨hpw, hnn⟩ := hok
  have hstack : (beginContainerS s bounds).scissorStack =
      newScissorRect s bounds :: s.scissorStack := rfl
  rw [hstack]
  have hnneg := newScissorRect_nonneg s bounds
  constructor
  · rw [List.pairwise_cons]
    refine ⟨?_, hpw⟩
    intro b hb
    cases hss : s.scissorStack with
    | nil =>
      rw [hss] at hb
      simp at hb
    | cons parent rest =>
      rw [hss] at hb hpw hnn
      have hparnn := hnn parent (by simp)
      have hpar := newScissorRect_le_parent s bounds parent rest hss hparnn.1 hparnn.2
      rcases List.mem_cons.mp hb with hb | hb
      · rw [hb]
        exact hpar
      · obtain ⟨hw2, hh2⟩ := (List.pairwise_cons.mp hpw).1 b hb
        exact ⟨le_trans hpar.1 hw2, le_trans hpar.2 hh2⟩
  · intro r hr
    rcases List.mem_cons.mp hr with hr | hr
    · rw [hr]
      exact hnneg
    · exact hnn r hr

theorem clipStackOK_end (s : RendererState) (hok : ClipStackOK s.scissorStack) :
    ClipStackOK (endContainerS s).scissorStack := by
  unfold endContainerS
  split
  · exact hok
  · constructor
    · exact hok.1.sublist (List.tail_sublist _)
    · intro r hr
      exact hok.2 r (List.mem_of_mem_tail hr)

/-- C5: clip intersection monotonicity and non-negativity.  After any
sequence of beginContainer/endContainer calls on a freshly initialized
engine, every clip rectangle on the stack is no larger than any of its
ancestors in either dimension, and every stacked width and height is ≥ 0
(degenerate intersections clamp to zero). -/
theorem c5_clip_monotone (W H : ℤ) (ops : List ClipOp) :
    List.Pairwise (fun a b => a.w ≤ b.w ∧ a.h ≤ b.h)
      (runClipOps (initRendererState W H) ops).scissorStack ∧
    ∀ r ∈ (runClipOps (initRendererState W H) ops).scissorStack, 0 ≤ r.w ∧ 0 ≤ r.h := by
  have main : ∀ (l : List ClipOp) (s : RendererState), ClipStackOK s.scissorStack →
      ClipStackOK (runClipOps s l).scissorStack := by
    intro l
    induction l with
    | nil => intro s h; exact h
    | cons op rest ih =>
      intro s h
      have hstep : runClipOps s (op :: rest) =
          runClipOps (match op with
            | .beginC b => beginContainerS s b
            | .endC => endContainerS s) rest := rfl
      rw [hstep]
      cases op with
      | beginC b => exact ih _ (clipStackOK_begin s b h)
      | endC => exact ih _ (clipStackOK_end s h)
  have hinit : ClipStackOK (initRendererState W H).scissorStack := by
    constructor
    · simp [initRendererState]
    · intro r hr
      simp [initRendererState] at hr
  exact main ops (initRendererState W H) hinit

/-- The effective shader id used by the sort comparator and the batcher:
the explicit override when nonzero, otherwise the dedicated id 5 for Line
objects, else static_cast<uint32_t>(type) + 1. -/
def effectiveShaderId (o : RenderObject) : ℕ :=
  if o.shaderId ≠ 0 then o.shaderId
  else if o.type = .Line then 5 else o.type.toUInt + 1

/-- The byte-wise memcmp(&a, &b, sizeof(RectF)) < 0 comparison of clip
rectangles, modelled as the lexicographic comparison of the four packed
fields: a strict total order whose equality kernel — memcmp returning 0
exactly on byte-identical rectangles — matches the batcher's uses. -/
def rectMemLt (a b : RectF) : Bool :=
  if a.x ≠ b.x then decide (a.x < b.x)
  else if a.y ≠ b.y then decide (a.y < b.y)
  else if a.w ≠ b.w then decide (a.w < b.w)
  else decide (a.h < b.h)

/-- The sort comparator passed to std::sort in DuckerNative_Render:
z-index, then effective shader id, then texture id, then — only when both
objects are Lines — curve mode then stroke width, then byte-wise clip
comparison. -/
def objLess (a b : RenderObject) : Bool :=
  if a.zIndex ≠ b.zIndex then decide (a.zIndex < b.zIndex)
  else if effectiveShaderId a ≠ effectiveShaderId b then
    decide (effectiveShaderId a < effectiveShaderId b)
  else if a.textureId ≠ b.textureId then decide (a.textureId < b.textureId)
  else if a.type = .Line ∧ b.type = .Line then
    if a.lineMode ≠ b.lineMode then decide (a.lineMode.toUInt < b.lineMode.toUInt)
    else if a.lineWidth ≠ b.lineWidth then decide (a.lineWidth < b.lineWidth)
    else rectMemLt a.scissorRect b.scissorRect
  else rectMemLt a.scissorRect b.scissorRect

/-- The comparator as a Prop. -/
def ObjLessP (a b : RenderObject) : Prop := objLess a b = true

/-- Lexicographic order on the leading (z-index, shader, texture) keys. -/
def preLt (a b : RenderObject) : Prop :=
  a.zIndex < b.zIndex ∨
    (a.zIndex = b.zIndex ∧
      (effectiveShaderId a < effectiveShaderId b ∨
        (effectiveShaderId a = effectiveShaderId b ∧ a.textureId < b.textureId)))

/-- Equality of the leading (z-index, shader, texture) keys. -/
def preEq (a b : RenderObject) : Prop :=
  a.zIndex = b.zIndex ∧ effectiveShaderId a = effectiveShaderId b ∧
    a.textureId = b.textureId

/-- rectMemLt as a Prop. -/
def RectLtP (a b : RectF) : Prop := rectMemLt a b = true

/-- The Line-only tail keys: curve mode, stroke width, then clip bytes. -/
def lineTailLt (a b : RenderObject) : Prop :=
  a.lineMode.toUInt < b.lineMode.toUInt ∨
    (a.lineMode = b.lineMode ∧
      (a.lineWidth < b.lineWidth ∨
        (a.lineWidth = b.lineWidth ∧ RectLtP a.scissorRect b.scissorRect)))

/-- Both operands are Line objects (guard of the line-only tie-breaks). -/
def bothLine (a b : RenderObject) : Prop := a.type = .Line ∧ b.type = .Line

theorem LineMode.toUInt_inj (a b : LineMode) : a.toUInt = b.toUInt ↔ a = b := by
  cases a <;> cases b <;> simp [LineMode.toUInt]

theorem objLess_iff (a b : RenderObject) :
    ObjLessP a b ↔
      preLt a b ∨
      (preEq a b ∧ ((bothLine a b ∧ lineTailLt a b) ∨
        (¬bothLine a b ∧ RectLtP a.scissorRect b.scissorRect))) := by
  unfold ObjLessP objLess preLt preEq bothLine lineTailLt RectLtP
  split_ifs with h1 h2 h3 h4 h5 h6
  · -- z differs
    simp only [decide_eq_true_eq]
    constructor
    · intro h
      exact .inl (.inl h)
    · rintro ((h | ⟨hz, _⟩) | ⟨⟨hz, _⟩, _⟩)
      · exact h
      · exact absurd hz h1
      · exact absurd hz h1
  · -- z equal, shader differs
    push_neg at h1
    simp only [decide_eq_true_eq]
    constructor
    · intro h
      exact .inl (.inr ⟨h1, .inl h⟩)
    · rintro ((h | ⟨_, h | ⟨hs, _⟩⟩) | ⟨⟨_, hs, _⟩, _⟩)
      · omega
      · exact h
      · exact absurd hs h2
      · exact absurd hs h2
  · -- z, shader equal, texture differs
    push_neg at h1 h2
    simp only [decide_eq_true_eq]
    constructor
    · intro h
      exact .inl (.inr ⟨h1, .inr ⟨h2, h⟩⟩)
    · rintro ((h | ⟨_, h | ⟨_, h⟩⟩) | ⟨⟨_, _, ht⟩, _⟩)
      · omega
      · omega
      · exact h
      · exact absurd ht h3
  · -- keys equal, both lines, mode differs
    push_neg at h1 h2 h3
    simp only [decide_eq_true_eq]
    constructor
    · intro h
      exact .inr ⟨⟨h1, h2, h3⟩, .inl ⟨h4, .inl h⟩⟩
    · rintro ((h | ⟨_, h | ⟨_, h⟩⟩) | ⟨_, ⟨_, hm | ⟨hm, _⟩⟩ | ⟨hnb, _⟩⟩)
      · omega
      · omega
      · omega
      · exact hm
      · exact absurd hm h5
      · exact absurd h4 hnb
  · -- keys equal, both lines, mode equal, width differs
    push_neg at h1 h2 h3 h5
    simp only [decide_eq_true_eq]
    constructor
    · intro h
      exact .inr ⟨⟨h1, h2, h3⟩, .inl ⟨h4, .inr ⟨h5, .inl h⟩⟩⟩
    · rintro ((h | ⟨_, h | ⟨_, h⟩⟩) | ⟨_, ⟨_, hm | ⟨_, hw | ⟨hw, _⟩⟩⟩ | ⟨hnb, _⟩⟩)
      · omega
      · omega
      · omega
      · rw [(LineMode.toUInt_inj _ _).mpr h5] at hm
        omega
      · exact hw
      · exact absurd hw h6
      · exact absurd h4 hnb
  · -- keys equal, both lines, mode and width equal
    push_neg at h1 h2 h3 h5 h6
    constructor
    · intro h
      exact .inr ⟨⟨h1, h2, h3⟩, .inl ⟨h4, .inr ⟨h5, .inr ⟨h6, h⟩⟩⟩⟩
    · rintro ((h | ⟨_, h | ⟨_, h⟩⟩) | ⟨_, ⟨_, hm | ⟨_, hw | ⟨_, h⟩⟩⟩ | ⟨hnb, _⟩⟩)
      · omega
      · omega
      · omega
      · rw [(LineMode.toUInt_inj _ _).mpr h5] at hm
        omega
      · exact absurd hw (by simp [h6])
      · exact h
      · exact absurd h4 hnb
  · -- keys equal, not both lines
    push_neg at h1 h2 h3
    constructor
    · intro h
      exact .inr ⟨⟨h1, h2, h3⟩, .inr ⟨h4, h⟩⟩
    · rintro ((h | ⟨_, h | ⟨_, h⟩⟩) | ⟨_, ⟨hb, _⟩ | ⟨_, h⟩⟩)
      · omega
      · omega
      · omega
      · exact absurd hb h4
      · exact h

/-- Lexicographic key of the clip-rectangle byte comparison. -/
def rectKey (a : RectF) : ℚ ×ₗ ℚ ×ₗ ℚ ×ₗ ℚ :=
  toLex (a.x, toLex (a.y, toLex (a.w, a.h)))

theorem rectLt_iff (a b : RectF) :
    RectLtP a b ↔ a.x < b.x ∨ (a.x = b.x ∧ (a.y < b.y ∨ (a.y = b.y ∧
      (a.w < b.w ∨ (a.w = b.w ∧ a.h < b.h))))) := by
  unfold RectLtP rectMemLt
  split_ifs with h1 h2 h3 <;> simp only [decide_eq_true_eq] <;> constructor
  · exact fun h => .inl h
  · rintro (h | ⟨hx, _⟩)
    · exact h
    · exact absurd hx h1
  · intro h
    push_neg at h1
    exact .inr ⟨h1, .inl h⟩
  · rintro (h | ⟨_, h | ⟨hy, _⟩⟩)
    · push_neg at h1
      rw [h1] at h
      exact absurd h (lt_irrefl _)
    · exact h
    · exact absurd hy h2
  · intro h
    push_neg at h1 h2
    exact .inr ⟨h1, .inr ⟨h2, .inl h⟩⟩
  · rintro (h | ⟨_, h | ⟨_, h | ⟨hw, _⟩⟩⟩)
    · push_neg at h1
      rw [h1] at h
      exact absurd h (lt_irrefl _)
    · push_neg at h2
      rw [h2] at h
      exact absurd h (lt_irrefl _)
    · exact h
    · exact absurd hw h3
  · intro h
    push_neg at h1 h2 h3
    exact .inr ⟨h1, .inr ⟨h2, .inr ⟨h3, h⟩⟩⟩
  · rintro (h | ⟨_, h | ⟨_, h | ⟨_, h⟩⟩⟩)
    · push_neg at h1
      rw [h1] at h
      exact absurd h (lt_irrefl _)
    · push_neg at h2
      rw [h2] at h
      exact absurd h (lt_irrefl _)
    · push_neg at h3
      rw [h3] at h
      exact absurd h (lt_irrefl _)
    · exact h

theorem rectLt_iff_key (a b : RectF) : RectLtP a b ↔ rectKey a < rectKey b := by
  rw [rectLt_iff]
  unfold rectKey
  rw [Prod.Lex.lt_iff, Prod.Lex.lt_iff, Prod.Lex.lt_iff]

theorem rectKey_inj (a b : RectF) : rectKey a = rectKey b ↔ a = b := by
  unfold rectKey
  constructor
  · intro h
    have h' := (toLex).injective h
    obtain ⟨hx, h2⟩ := Prod.mk.injEq .. ▸ h'
    have h2' := (toLex).injective h2
    obtain ⟨hy, h3⟩ := Prod.mk.injEq .. ▸ h2'
    have h3' := (toLex).injective h3
    obtain ⟨hw, hh⟩ := Prod.mk.injEq .. ▸ h3'
    cases a
    cases b
    simp_all
  · intro h
    rw [h]

/-- Lexicographic key of the leading (z-index, shader, texture) chain. -/
def preKey (o : RenderObject) : ℤ ×ₗ ℕ ×ₗ ℕ :=
  toLex (o.zIndex, toLex (effectiveShaderId o, o.textureId))

theorem preLt_iff_key (a b : RenderObject) : preLt a b ↔ preKey a < preKey b := by
  unfold preLt preKey
  rw [Prod.Lex.lt_iff, Prod.Lex.lt_iff]

theorem preEq_iff_key (a b : RenderObject) : preEq a b ↔ preKey a = preKey b := by
  unfold preEq preKey
  constructor
  · rintro ⟨h1, h2, h3⟩
    rw [h1, h2, h3]
  · intro h
    have h' := (toLex).injective h
    obtain ⟨h1, h2⟩ := Prod.mk.injEq .. ▸ h'
    have h2' := (toLex).injective h2
    obtain ⟨h3, h4⟩ := Prod.mk.injEq .. ▸ h2'
    exact ⟨h1, h3, h4⟩

/-- Lexicographic key of the Line-only (mode, width, clip) tail chain. -/
def lineKey (o : RenderObject) : ℕ ×ₗ ℚ ×ₗ (ℚ ×ₗ ℚ ×ₗ ℚ ×ₗ ℚ) :=
  toLex (o.lineMode.toUInt, toLex (o.lineWidth, rectKey o.scissorRect))

theorem lineTailLt_iff_key (a b : RenderObject) : lineTailLt a b ↔ lineKey a < lineKey b := by
  unfold lineTailLt lineKey
  rw [Prod.Lex.lt_iff, Prod.Lex.lt_iff]
  constructor
  · rintro (h | ⟨hm, h | ⟨hw, h⟩⟩)
    · exact .inl h
    · exact .inr ⟨by rw [hm], .inl h⟩
    · exact .inr ⟨by rw [hm], .inr ⟨hw, (rectLt_iff_key _ _).mp h⟩⟩
  · rintro (h | ⟨hm, h | ⟨hw, h⟩⟩)
    · exact .inl h
    · exact .inr ⟨(LineMode.toUInt_inj _ _).mp hm, .inl h⟩
    · exact .inr ⟨(LineMode.toUInt_inj _ _).mp hm, .inr ⟨hw, (rectLt_iff_key _ _).mpr h⟩⟩

/-- The master key form of the comparator. -/
theorem objLess_iff_key (a b : RenderObject) :
    ObjLessP a b ↔
      preKey a < preKey b ∨
      (preKey a = preKey b ∧
        ((bothLine a b ∧ lineKey a < lineKey b) ∨
          (¬bothLine a b ∧ rectKey a.scissorRect < rectKey b.scissorRect))) := by
  rw [objLess_iff, preLt_iff_key, preEq_iff_key]
  constructor
  · rintro (h | ⟨he, ⟨hb, ht⟩ | ⟨hb, ht⟩⟩)
    · exact .inl h
    · exact .inr ⟨he, .inl ⟨hb, (lineTailLt_iff_key _ _).mp ht⟩⟩
    · exact .inr ⟨he, .inr ⟨hb, (rectLt_iff_key _ _).mp ht⟩⟩
  · rintro (h | ⟨he, ⟨hb, ht⟩ | ⟨hb, ht⟩⟩)
    · exact .inl h
    · exact .inr ⟨he, .inl ⟨hb, (lineTailLt_iff_key _ _).mpr ht⟩⟩
    · exact .inr ⟨he, .inr ⟨hb, (rectLt_iff_key _ _).mpr ht⟩⟩

theorem bothLine_comm (a b : RenderObject) : bothLine a b ↔ bothLine b a := by
  unfold bothLine
  tauto

theorem objLess_irrefl (a : RenderObject) : ¬ObjLessP a a := by
  rw [objLess_iff_key]
  rintro (h | ⟨_, ⟨_, h⟩ | ⟨_, h⟩⟩) <;> exact absurd h (lt_irrefl _)

theorem objLess_asymm (a b : RenderObject) (h1 : ObjLessP a b) : ¬ObjLessP b a := by
  rw [objLess_iff_key] at h1 ⊢
  rintro (h2 | ⟨he2, ⟨hb2, ht2⟩ | ⟨hb2, ht2⟩⟩) <;>
    rcases h1 with h1 | ⟨he1, ⟨hb1, ht1⟩ | ⟨hb1, ht1⟩⟩
  · exact absurd h1 (lt_asymm h2)
  · rw [he1] at h2
    exact absurd h2 (lt_irrefl _)
  · rw [he1] at h2
    exact absurd h2 (lt_irrefl _)
  · rw [he2] at h1
    exact absurd h1 (lt_irrefl _)
  · exact absurd ht1 (lt_asymm ht2)
  · exact absurd ((bothLine_comm b a).mp hb2) hb1
  · rw [he2] at h1
    exact absurd h1 (lt_irrefl _)
  · exact absurd ((bothLine_comm a b).mp hb1) hb2
  · exact absurd ht1 (lt_asymm ht2)

/-- Exchange-compatibility for the comparator: when two objects tie on the
leading keys, they must agree on Line-ness (so the comparator's line-only
tie-breaks are applied consistently). -/
def mixOk (a b : RenderObject) : Prop :=
  preEq a b → (a.type = .Line ↔ b.type = .Line)

theorem mixOk_symm (a b : RenderObject) (h : mixOk a b) : mixOk b a := by
  intro hpe
  have hpe' : preEq a b := by
    obtain ⟨h1, h2, h3⟩ := hpe
    exact ⟨h1.symm, h2.symm, h3.symm⟩
  exact (h hpe').symm

theorem objLess_trans_mixOk (a b c : RenderObject)
    (hab : mixOk a b) (hbc : mixOk b c)
    (h1 : ObjLessP a b) (h2 : ObjLessP b c) : ObjLessP a c := by
  rw [objLess_iff_key] at h1 h2 ⊢
  rcases h1 with h1 | ⟨e1, t1⟩
  · rcases h2 with h2 | ⟨e2, t2⟩
    · exact .inl (lt_trans h1 h2)
    · exact .inl (e2 ▸ h1)
  · rcases h2 with h2 | ⟨e2, t2⟩
    · exact .inl (e1 ▸ h2)
    · right
      refine ⟨e1.trans e2, ?_⟩
      have hpe1 : preEq a b := (preEq_iff_key a b).mpr e1
      have hpe2 : preEq b c := (preEq_iff_key b c).mpr e2
      have hl1 := hab hpe1
      have hl2 := hbc hpe2
      by_cases hline : a.type = .Line
      · have hlb : b.type = .Line := hl1.mp hline
        have hlc : c.type = .Line := hl2.mp hlb
        rcases t1 with ⟨_, ht1⟩ | ⟨hnb, _⟩
        · rcases t2 with ⟨_, ht2⟩ | ⟨hnb, _⟩
          · exact .inl ⟨⟨hline, hlc⟩, lt_trans ht1 ht2⟩
          · exact absurd ⟨hlb, hlc⟩ hnb
        · exact absurd ⟨hline, hlb⟩ hnb
      · have hlb : ¬b.type = .Line := fun h => hline (hl1.mpr h)
        have hlc : ¬c.type = .Line := fun h => hlb (hl2.mpr h)
        rcases t1 with ⟨⟨ha', _⟩, _⟩ | ⟨_, ht1⟩
        · exact absurd ha' hline
        · rcases t2 with ⟨⟨hb', _⟩, _⟩ | ⟨_, ht2⟩
          · exact absurd hb' hlb
          · exact .inr ⟨fun hb' => hline hb'.1, lt_trans ht1 ht2⟩

/-- Incomparability under the comparator forces key equality. -/
theorem objLess_incomp (a b : RenderObject)
    (h : ¬ObjLessP a b ∧ ¬ObjLessP b a) :
    preKey a = preKey b ∧
      (bothLine a b → lineKey a = lineKey b) ∧
      (¬bothLine a b → rectKey a.scissorRect = rectKey b.scissorRect) := by
  obtain ⟨h1, h2⟩ := h
  rw [objLess_iff_key] at h1 h2
  have hk : preKey a = preKey b := by
    rcases lt_trichotomy (preKey a) (preKey b) with h | h | h
    · exact absurd h (fun hh => h1 (.inl hh))
    · exact h
    · exact absurd h (fun hh => h2 (.inl hh))
  refine ⟨hk, ?_, ?_⟩
  · intro hbl
    rcases lt_trichotomy (lineKey a) (lineKey b) with h | h | h
    · exact absurd (Or.inr ⟨hk, .inl ⟨hbl, h⟩⟩) h1
    · exact h
    · exact absurd (Or.inr ⟨hk.symm, .inl ⟨(bothLine_comm a b).mp hbl, h⟩⟩) h2
  · intro hnb
    rcases lt_trichotomy (rectKey a.scissorRect) (rectKey b.scissorRect) with h | h | h
    · exact absurd (Or.inr ⟨hk, .inr ⟨hnb, h⟩⟩) h1
    · exact h
    · exact absurd (Or.inr ⟨hk.symm, .inr ⟨(bothLine_comm a b).not.mp hnb, h⟩⟩) h2

theorem objLess_incomp_trans_mixOk (a b c : RenderObject)
    (hab : mixOk a b) (hbc : mixOk b c)
    (h1 : ¬ObjLessP a b ∧ ¬ObjLessP b a) (h2 : ¬ObjLessP b c ∧ ¬ObjLessP c b) :
    ¬ObjLessP a c ∧ ¬ObjLessP c a := by
  obtain ⟨hk1, hl1, hr1⟩ := objLess_incomp a b h1
  obtain ⟨hk2, hl2, hr2⟩ := objLess_incomp b c h2
  have hpe1 : preEq a b := (preEq_iff_key a b).mpr hk1
  have hpe2 : preEq b c := (preEq_iff_key b c).mpr hk2
  have hiff1 := hab hpe1
  have hiff2 := hbc hpe2
  have hk : preKey a = preKey c := hk1.trans hk2
  by_cases hline : a.type = .Line
  · have hlb : b.type = .Line := hiff1.mp hline
    have hlc : c.type = .Line := hiff2.mp hlb
    have he1 : lineKey a = lineKey b := hl1 ⟨hline, hlb⟩
    have he2 : lineKey b = lineKey c := hl2 ⟨hlb, hlc⟩
    constructor <;> rw [objLess_iff_key] <;>
      rintro (h | ⟨_, ⟨_, h⟩ | ⟨hnb, h⟩⟩)
    · rw [hk] at h
      exact absurd h (lt_irrefl _)
    · rw [he1.trans he2] at h
      exact absurd h (lt_irrefl _)
    · exact hnb ⟨hline, hlc⟩
    · rw [hk] at h
      exact absurd h (lt_irrefl _)
    · rw [he1.trans he2] at h
      exact absurd h (lt_irrefl _)
    · exact hnb ⟨hlc, hline⟩
  · have hlb : ¬b.type = .Line := fun h => hline (hiff1.mpr h)
    have hlc : ¬c.type = .Line := fun h => hlb (hiff2.mpr h)
    have he1 : rectKey a.scissorRect = rectKey b.scissorRect := hr1 fun hh => hline hh.1
    have he2 : rectKey b.scissorRect = rectKey c.scissorRect := hr2 fun hh => hlb hh.1
    constructor <;> rw [objLess_iff_key] <;>
      rintro (h | ⟨_, ⟨hb', _⟩ | ⟨_, h⟩⟩)
    · rw [hk] at h
      exact absurd h (lt_irrefl _)
    · exact hline hb'.1
    · rw [he1.trans he2] at h
      exact absurd h (lt_irrefl _)
    · rw [hk] at h
      exact absurd h (lt_irrefl _)
    · exact hlc hb'.1
    · rw [(he1.trans he2).symm] at h
      exact absurd h (lt_irrefl _)

/-- The non-strict order induced by the comparator (std::sort's output is
sorted in the sense that no later element compares less than an earlier
one). -/
def objLe (a b : RenderObject) : Bool := !objLess b a

theorem objLe_total (a b : RenderObject) : objLe a b = true ∨ objLe b a = true := by
  unfold objLe
  by_cases h : ObjLessP b a
  · right
    have := objLess_asymm b a h
    unfold ObjLessP at this
    simp [this]
  · left
    unfold ObjLessP at h
    simp [h]

theorem objLe_trans_mixOk (a b c : RenderObject)
    (hab : mixOk a b) (hbc : mixOk b c) (hac : mixOk a c)
    (h1 : objLe a b = true) (h2 : objLe b c = true) : objLe a c = true := by
  unfold objLe at h1 h2 ⊢
  simp only [Bool.not_eq_true'] at h1 h2 ⊢
  by_contra hca
  have hca' : ObjLessP c a := by
    unfold ObjLessP
    revert hca
    cases objLess c a <;> simp
  have hba : ¬ObjLessP b a := by
    unfold ObjLessP
    simp [h1]
  have hcb : ¬ObjLessP c b := by
    unfold ObjLessP
    simp [h2]
  by_cases hab' : ObjLessP a b
  · exact hcb (objLess_trans_mixOk c a b (mixOk_symm a c hac) hab hca' hab')
  · by_cases hbc' : ObjLessP b c
    · exact hba (objLess_trans_mixOk b c a hbc (mixOk_symm a c hac) hbc' hca')
    · have := objLess_incomp_trans_mixOk a b c hab hbc ⟨hab', hba⟩ ⟨hbc', hcb⟩
      exact this.2 hca'

/-- A strict weak order: irreflexive, transitive, and with transitive
incomparability. -/
def SWOrder (r : RenderObject → RenderObject → Prop) : Prop :=
  (∀ a, ¬r a a) ∧
  (∀ a b c, r a b → r b c → r a c) ∧
  (∀ a b c, (¬r a b ∧ ¬r b a) → (¬r b c ∧ ¬r c b) → (¬r a c ∧ ¬r c a))

/-- A Line with stroke width 1 under clip rectangle x=2. -/
def c2LineA : RenderObject := { type := .Line, lineWidth := 1, scissorRect := ⟨2, 0, 0, 0⟩ }

/-- A Line with stroke width 2 under clip rectangle x=0. -/
def c2LineB : RenderObject := { type := .Line, lineWidth := 2, scissorRect := ⟨0, 0, 0, 0⟩ }

/-- A Rect whose shader override is 5 — the Line built-in program id, as
settable through DuckerNative_SetObjectShader — under clip rectangle x=1. -/
def c2RectC : RenderObject := { type := .Rect, shaderId := 5, scissorRect := ⟨1, 0, 0, 0⟩ }

/-- C2 counterexample: the comparator is NOT a strict weak order.  The three
objects above form a strict cycle: the two Lines are ordered by stroke
width before the clip comparison, but each Line is compared with the Rect
(same z-index, same effective shader id 5, same texture) by clip bytes
only, and the clip rectangles are arranged against the stroke widths. -/
theorem c2_not_swo : ¬SWOrder ObjLessP := by
  intro h
  have h12 : ObjLessP c2LineA c2LineB := by unfold ObjLessP; decide
  have h23 : ObjLessP c2LineB c2RectC := by unfold ObjLessP; decide
  have h31 : ObjLessP c2RectC c2LineA := by unfold ObjLessP; decide
  exact h.1 c2LineA (h.2.1 _ _ _ h12 (h.2.1 _ _ _ h23 h31))

/-- Ordered insertion (building block of the comparison-sort model of
std::sort; std::sort's algorithm is unspecified, and the claims only use
the output characterization — a permutation of the pool, sorted w.r.t. the
comparator). -/
def insertLe (le : RenderObject → RenderObject → Bool) (a : RenderObject) :
    List RenderObject → List RenderObject
  | [] => [a]
  | b :: t => if le a b then a :: b :: t else b :: insertLe le a t

/-- Comparison-sort model of std::sort(objects.begin(), objects.end(), cmp). -/
def sortLe (le : RenderObject → RenderObject → Bool) :
    List RenderObject → List RenderObject
  | [] => []
  | a :: t => insertLe le a (sortLe le t)

theorem insertLe_perm (le : RenderObject → RenderObject → Bool) (a : RenderObject)
    (l : List RenderObject) : List.Perm (insertLe le a l) (a :: l) := by
  induction l with
  | nil => simp [insertLe]
  | cons b t ih =>
    unfold insertLe
    split
    · exact List.Perm.refl _
    · exact (ih.cons b).trans (List.Perm.swap a b t)

theorem sortLe_perm (le : RenderObject → RenderObject → Bool) (l : List RenderObject) :
    List.Perm (sortLe le l) l := by
  induction l with
  | nil => exact List.Perm.refl _
  | cons a t ih => exact (insertLe_perm le a (sortLe le t)).trans (ih.cons a)

theorem insertLe_pairwise (le : RenderObject → RenderObject → Bool) (a : RenderObject)
    (l : List RenderObject)
    (htot : ∀ x ∈ a :: l, ∀ y ∈ a :: l, le x y = true ∨ le y x = true)
    (htrans : ∀ x ∈ a :: l, ∀ y ∈ a :: l, ∀ z ∈ a :: l,
      le x y = true → le y z = true → le x z = true)
    (hp : List.Pairwise (fun x y => le x y = true) l) :
    List.Pairwise (fun x y => le x y = true) (insertLe le a l) := by
  induction l with
  | nil => simp [insertLe]
  | cons b t ih =>
    unfold insertLe
    by_cases hab : le a b = true
    · rw [if_pos hab]
      rw [List.pairwise_cons]
      refine ⟨?_, hp⟩
      intro y hy
      rcases List.mem_cons.mp hy with rfl | hy
      · exact hab
      · have hby : le b y = true := (List.pairwise_cons.mp hp).1 y hy
        exact htrans a (by simp) b (by simp) y (by simp [hy]) hab hby
    · rw [if_neg hab]
      have hba : le b a = true := by
        rcases htot a (by simp) b (by simp) with h | h
        · exact absurd h hab
        · exact h
      rw [List.pairwise_cons]
      constructor
      · intro y hy
        have hmem := (insertLe_perm le a t).mem_iff.mp hy
        rcases List.mem_cons.mp hmem with rfl | hyt
        · exact hba
        · exact (List.pairwise_cons.mp hp).1 y hyt
      · refine ih ?_ ?_ (List.pairwise_cons.mp hp).2
        · intro x hx y hy
          apply htot
          · rcases List.mem_cons.mp hx with rfl | hx
            · simp
            · simp [hx]
          · rcases List.mem_cons.mp hy with rfl | hy
            · simp
            · simp [hy]
        · intro x hx y hy z hz
          apply htrans
          · rcases List.mem_cons.mp hx with rfl | hx
            · simp
            · simp [hx]
          · rcases List.mem_cons.mp hy with rfl | hy
            · simp
            · simp [hy]
          · rcases List.mem_cons.mp hz with rfl | hz
            · simp
            · simp [hz]

theorem sortLe_pairwise (le : RenderObject → RenderObject → Bool) (l : List RenderObject)
    (htot : ∀ x ∈ l, ∀ y ∈ l, le x y = true ∨ le y x = true)
    (htrans : ∀ x ∈ l, ∀ y ∈ l, ∀ z ∈ l, le x y = true → le y z = true → le x z = true) :
    List.Pairwise (fun x y => le x y = true) (sortLe le l) := by
  induction l with
  | nil => simp [sortLe]
  | cons a t ih =>
    unfold sortLe
    have hmemt : ∀ x, x ∈ a :: sortLe le t → x ∈ a :: t := by
      intro x hx
      rcases List.mem_cons.mp hx with rfl | hx
      · simp
      · exact List.mem_cons.mpr (.inr ((sortLe_perm le t).mem_iff.mp hx))
    apply insertLe_pairwise
    · intro x hx y hy
      exact htot x (hmemt x hx) y (hmemt y hy)
    · intro x hx y hy z hz
      exact htrans x (hmemt x hx) y (hmemt y hy) z (hmemt z hz)
    · apply ih
      · intro x hx y hy
        exact htot x (by simp [hx]) y (by simp [hy])
      · intro x hx y hy z hz
        exact htrans x (by simp [hx]) y (by simp [hy]) z (by simp [hz])

/-- The index-map rebuild loop of DuckerNative_Render:
for i in 0..objects.size-1, objectIdToIndex[objects[i].id] = i (assignments
into the existing map, starting index i0). -/
def rebuildIdx : List (ℕ × ℕ) → List RenderObject → ℕ → List (ℕ × ℕ)
  | m, [], _ => m
  | m, o :: rest, i => rebuildIdx (minsert m o.id i) rest (i + 1)

theorem mfind_rebuildIdx_notmem (objs : List RenderObject) :
    ∀ (m : List (ℕ × ℕ)) (i0 k : ℕ), k ∉ objs.map (·.id) →
      mfind (rebuildIdx m objs i0) k = mfind m k := by
  induction objs with
  | nil => intro m i0 k _; rfl
  | cons o rest ih =>
    intro m i0 k hk
    simp only [List.map_cons, List.mem_cons] at hk
    push_neg at hk
    have hstep : rebuildIdx m (o :: rest) i0 = rebuildIdx (minsert m o.id i0) rest (i0 + 1) := rfl
    rw [hstep, ih (minsert m o.id i0) (i0 + 1) k hk.2, mfind_minsert, if_neg hk.1]

theorem mfind_rebuildIdx (objs : List RenderObject) :
    ∀ (m : List (ℕ × ℕ)) (i0 : ℕ), (objs.map (·.id)).Nodup →
      ∀ j, j < objs.length →
        mfind (rebuildIdx m objs i0) ((objs.getD j default).id) = some (i0 + j) := by
  induction objs with
  | nil =>
    intro m i0 _ j hj
    simp at hj
  | cons o rest ih =>
    intro m i0 hnd j hj
    simp only [List.map_cons, List.nodup_cons] at hnd
    have hstep : rebuildIdx m (o :: rest) i0 = rebuildIdx (minsert m o.id i0) rest (i0 + 1) := rfl
    rw [hstep]
    cases j with
    | zero =>
      have hget : ((o :: rest).getD 0 default) = o := rfl
      rw [hget, mfind_rebuildIdx_notmem rest (minsert m o.id i0) (i0 + 1) o.id hnd.1,
        mfind_minsert, if_pos rfl]
      congr 1
    | succ j' =>
      have hget : ((o :: rest).getD (j' + 1) default) = rest.getD j' default := rfl
      rw [hget]
      have := ih (minsert m o.id i0) (i0 + 1) hnd.2 j' (by simp at hj; omega)
      rw [this]
      congr 1
      omega

/-- The scene-state transition of DuckerNative_Render: early-out when the
pool is empty; when the dirty flag is set, a full resort (std::sort on the
comparator), a full rebuild of the id→index map over the sorted pool, and
the flag cleared.  The shadow expansion, blur passes and batched draw that
follow only issue GL commands and mutate no scene state. -/
def renderUpdate (s : RendererState) : RendererState :=
  if s.objects.isEmpty then s
  else if s.needsSort then
    let sorted := sortLe objLe s.objects
    { s with
        objects := sorted
        objectIdToIndex := rebuildIdx s.objectIdToIndex sorted 0
        needsSort := false }
  else s

/-- DuckerNative_Render from DuckerNative.cpp (scene-state part). -/
def DuckerNative_Render (e : Engine) : Engine :=
  match e with
  | none => none
  | some s => some (renderUpdate s)

instance (a b : RenderObject) : Decidable (preEq a b) := by
  unfold preEq
  infer_instance

instance (a b : RenderObject) : Decidable (mixOk a b) := by
  unfold mixOk
  infer_instance

instance (a b : RenderObject) : Decidable (ObjLessP a b) := by
  unfold ObjLessP
  infer_instance

/-- C2 (amended): the comparator orders ascending by z-index, then effective
shader id (override if nonzero, else type-derived with Line's dedicated id
5), then texture id, then — for two Lines — curve mode and stroke width,
then byte-wise clip comparison; it is irreflexive, and transitive with
transitive incomparability on any collection of objects in which no Line
and non-Line share z-index, effective shader id and texture id (`mixOk`);
on such pools, a dirty Render leaves the pool sorted by the comparator as a
permutation of the old pool, fully rebuilds the id→index map, and clears
the dirty flag.  (Unrestricted, the comparator is not a strict weak order:
`c2_not_swo`.) -/
theorem c2_sort_order_amended :
    (∀ a, ¬ObjLessP a a) ∧
    (∀ a b c, mixOk a b → mixOk b c → ObjLessP a b → ObjLessP b c → ObjLessP a c) ∧
    (∀ a b c, mixOk a b → mixOk b c →
      (¬ObjLessP a b ∧ ¬ObjLessP b a) → (¬ObjLessP b c ∧ ¬ObjLessP c b) →
      (¬ObjLessP a c ∧ ¬ObjLessP c a)) ∧
    (∀ s : RendererState, s.needsSort = true → s.objects.isEmpty = false →
      (∀ a ∈ s.objects, ∀ b ∈ s.objects, mixOk a b) →
      ((renderUpdate s).objects.Pairwise fun a b => ¬ObjLessP b a) ∧
      List.Perm (renderUpdate s).objects s.objects ∧
      ((s.objects.map (·.id)).Nodup →
        ∀ j, j < (renderUpdate s).objects.length →
          mfind (renderUpdate s).objectIdToIndex
            (((renderUpdate s).objects.getD j default).id) = some j) ∧
      (renderUpdate s).needsSort = false) := by
  refine ⟨objLess_irrefl, objLess_trans_mixOk, objLess_incomp_trans_mixOk, ?_⟩
  intro s hns hne hmix
  have hru : renderUpdate s =
      { s with
          objects := sortLe objLe s.objects
          objectIdToIndex := rebuildIdx s.objectIdToIndex (sortLe objLe s.objects) 0
          needsSort := false } := by
    unfold renderUpdate
    rw [hne, hns]
    simp
  have hperm := sortLe_perm objLe s.objects
  refine ⟨?_, ?_, ?_, ?_⟩
  · rw [hru]
    have hpw := sortLe_pairwise objLe s.objects
      (fun x _ y _ => objLe_total x y)
      (fun x hx y hy z hz h1 h2 =>
        objLe_trans_mixOk x y z (hmix x hx y hy) (hmix y hy z hz) (hmix x hx z hz) h1 h2)
    refine hpw.imp ?_
    intro a b h
    unfold objLe at h
    simp only [Bool.not_eq_true'] at h
    unfold ObjLessP
    simp [h]
  · rw [hru]
    exact hperm
  · intro hnd j hj
    rw [hru] at hj ⊢
    have hnd' : ((sortLe objLe s.objects).map (·.id)).Nodup := by
      refine (List.Perm.nodup_iff ?_).mpr hnd
      exact hperm.map _
    have := mfind_rebuildIdx (sortLe objLe s.objects) s.objectIdToIndex 0 hnd' j hj
    rw [this]
    congr 1
    omega
  · rw [hru]

/-- A two-object pool (z-indices 1 and 0) awaiting a resort. -/
def c2s : RendererState :=
  addMany (initRendererState 100 100) [{ zIndex := 1 }, { zIndex := 0 }]

/-- C2 witness: rendering the two-object pool sorts it, rebuilds the map and
clears the flag. -/
theorem c2_sort_order_amended_witness :
    c2s.needsSort = true ∧ c2s.objects.isEmpty = false ∧
    (∀ a ∈ c2s.objects, ∀ b ∈ c2s.objects, mixOk a b) ∧
    (((renderUpdate c2s).objects.Pairwise fun a b => ¬ObjLessP b a) ∧
      List.Perm (renderUpdate c2s).objects c2s.objects ∧
      ((c2s.objects.map (·.id)).Nodup →
        ∀ j, j < (renderUpdate c2s).objects.length →
          mfind (renderUpdate c2s).objectIdToIndex
            (((renderUpdate c2s).objects.getD j default).id) = some j) ∧
      (renderUpdate c2s).needsSort = false) :=
  ⟨by decide, by decide, by decide,
    c2_sort_order_amended.2.2.2 c2s (by decide) (by decide) (by decide)⟩

/-- The scene after three Add calls (z-indices 2, 0, 1 — issued ids 1, 2,
3), one Render (which sorts the pool to z-order [0, 1, 2] = ids [2, 3, 1]
and clears the dirty flag), and then RemoveObject(2), which removes the
first slot and swaps the last object (id 1, z = 2) into it. -/
def c3Scene : RendererState :=
  removeObjectS
    (renderUpdate (addMany (initRendererState 800 600)
      [{ zIndex := 2 }, { zIndex := 0 }, { zIndex := 1 }])) 2

/-- C3 (code-bug evidence): every insertion sets the needs-resort flag, but
DuckerNative_RemoveObject never touches it.  After add/add/add, render,
remove-non-last, the pool sits in z-order [2, 1] — out of order — with
needsSort still false, so the next Render performs no resort at all
(renderUpdate is the identity on this state). -/
theorem c3_remove_does_not_dirty :
    (∀ (s : RendererState) (obj : RenderObject), (addObj s obj).1.needsSort = true) ∧
    (∀ (s : RendererState) (objectId : ℕ),
      (removeObjectS s objectId).needsSort = s.needsSort) ∧
    c3Scene.needsSort = false ∧
    c3Scene.objects.map (·.zIndex) = [2, 1] ∧
    ¬(c3Scene.objects.Pairwise fun a b => ¬ObjLessP b a) ∧
    renderUpdate c3Scene = c3Scene := by
  refine ⟨?_, ?_, by decide, by decide, by decide, by decide⟩
  · intro s obj
    rfl
  · intro s objectId
    unfold removeObjectS
    cases mfind s.objectIdToIndex objectId with
    | none => rfl
    | some indexToRemove =>
      dsimp only
      split <;> rfl

/-- One Catmull-Rom cubic sample at parameter t through a 4-point window
(the basis polynomial of DuckerNative.cpp, shared by DuckerNative_AddLine
and RenderObjects). -/
def catmullRomPoint (p0 p1 p2 p3 : Vec2) (t : ℚ) : Vec2 :=
  let t2 := t * t
  let t3 := t2 * t
  ⟨(1/2) * ((-t3 + 2*t2 - t) * p0.x + (3*t3 - 5*t2 + 2) * p1.x +
      (-3*t3 + 4*t2 + t) * p2.x + (t3 - t2) * p3.x),
   (1/2) * ((-t3 + 2*t2 - t) * p0.y + (3*t3 - 5*t2 + 2) * p1.y +
      (-3*t3 + 4*t2 + t) * p2.y + (t3 - t2) * p3.y)⟩

/-- num_per_segment from the tessellation loops. -/
def num_per_segment : ℕ := 20

/-- The Catmull-Rom tessellation loop: for every consecutive point pair
(clamping out-of-range neighbour indices to the nearest valid endpoint),
20 samples at t = k/19. -/
def catmullChain (all_points : List Vec2) : List Vec2 :=
  (List.range (all_points.length - 1)).flatMap (fun i =>
    let p0 := all_points.getD (if i > 0 then i - 1 else 0) ⟨0, 0⟩
    let p1 := all_points.getD i ⟨0, 0⟩
    let p2 := all_points.getD (i + 1) ⟨0, 0⟩
    let p3 := all_points.getD
      (if i + 1 < all_points.length - 1 then i + 2 else all_points.length - 1) ⟨0, 0⟩
    (List.range num_per_segment).map (fun k : ℕ =>
      catmullRomPoint p0 p1 p2 p3 ((k : ℚ) / ((num_per_segment : ℚ) - 1))))

/-- The control polygon of a Curved line: when no control points were
supplied and the start→end distance exceeds 1e-6, synthesize one midpoint
control offset perpendicular to the direction by a quarter of the length.
The C++ computes perp = (-dir.y, dir.x)/len and adds perp·(len/4); the len
factors cancel exactly, leaving (-dir.y, dir.x)/4, and the guard
len > 1e-6 (len = √(dir·dir) ≥ 0) is equivalently dir·dir > (1e-6)². -/
def curvedAllPoints (start endP : Vec2) (controlPoints : List Vec2) : List Vec2 :=
  let all0 := start :: controlPoints ++ [endP]
  if controlPoints.isEmpty then
    let dir : Vec2 := ⟨endP.x - start.x, endP.y - start.y⟩
    if dir.x * dir.x + dir.y * dir.y > (1/1000000) * (1/1000000) then
      [start,
       ⟨(start.x + endP.x) / 2 - dir.y / 4, (start.y + endP.y) / 2 + dir.x / 4⟩,
       endP]
    else all0
  else all0

/-- The full Curved-mode sample sequence of a Line: tessellate the control
polygon, then force the final sample to the literal end point
(points.back() = obj.end). -/
def curvedSamples (start endP : Vec2) (controlPoints : List Vec2) : List Vec2 :=
  let points := catmullChain (curvedAllPoints start endP controlPoints)
  if points.isEmpty then points else points.dropLast ++ [endP]

theorem curvedAllPoints_length (start endP : Vec2) (controlPoints : List Vec2) :
    2 ≤ (curvedAllPoints start endP controlPoints).length := by
  unfold curvedAllPoints
  dsimp only
  split
  · split <;> simp
  · simp

theorem catmullChain_ne_nil (all_points : List Vec2) (h : 2 ≤ all_points.length) :
    catmullChain all_points ≠ [] := by
  unfold catmullChain
  intro hc
  rw [List.flatMap_eq_nil_iff] at hc
  have h0 : 0 ∈ List.range (all_points.length - 1) := by
    rw [List.mem_range]
    omega
  have h1 := hc 0 h0
  dsimp only at h1
  rw [List.map_eq_nil_iff, List.range_eq_nil] at h1
  simp [num_per_segment] at h1

/-- C6: curved-line tessellation end exactness.  For every Line in Curved
mode (the start and end points are always present), the final tessellated
sample equals the literal end point, no matter the supplied control points
or the Catmull-Rom arithmetic. -/
theorem c6_curved_end_exact (start endP : Vec2) (controlPoints : List Vec2) :
    (curvedSamples start endP controlPoints).getLast? = some endP := by
  unfold curvedSamples
  have hne := catmullChain_ne_nil (curvedAllPoints start endP controlPoints)
    (curvedAllPoints_length start endP controlPoints)
  rw [if_neg (by simpa [List.isEmpty_iff] using hne)]
  exact List.getLast?_concat _

/-- The point sequence [start, control points…, end] of a Line. -/
def linePoints (start endP : Vec2) (controls : List Vec2) : List Vec2 :=
  start :: controls ++ [endP]

/-- The RenderObject built by DuckerNative_AddLine before AddObjectInternal:
the sample-point extent (straight mode: the points themselves; curved mode:
the Catmull-Rom samples, accumulated before the final end-point snap, with
min/max initialized from `start`), the triangle count 2 × segments, and
bounds = {minX - w/2, minY - w/2, maxX - minX + w, maxY - minY + w}. -/
def lineObjFor (start endP : Vec2) (color : Vec4) (width : ℚ) (mode : LineMode)
    (controls : List Vec2) (zIndex : ℤ) : RenderObject :=
  let approx_points : List Vec2 :=
    match mode with
    | .Straight => linePoints start endP controls
    | .Curved => catmullChain (curvedAllPoints start endP controls)
  let minX := approx_points.foldl (fun m p => min m p.x) start.x
  let maxX := approx_points.foldl (fun m p => max m p.x) start.x
  let minY := approx_points.foldl (fun m p => min m p.y) start.y
  let maxY := approx_points.foldl (fun m p => max m p.y) start.y
  let num_segments : ℕ := if approx_points.length > 1 then approx_points.length - 1 else 0
  { type := .Line
    start := start
    endPoint := endP
    lineWidth := width
    lineMode := mode
    color := color
    zIndex := zIndex
    textureId := 0
    controlPoints := controls
    rotation := 0
    rotationOrigin := ⟨1/2, 1/2⟩
    triCount := (num_segments : ℤ) * 2
    bounds := ⟨minX - width / 2, minY - width / 2, maxX - minX + width, maxY - minY + width⟩ }

/-- DuckerNative_AddLine from DuckerNative.cpp. -/
def DuckerNative_AddLine (e : Engine) (start endP : Vec2) (color : Vec4) (width : ℚ)
    (mode : LineMode) (controls : List Vec2) (zIndex : ℤ) : Engine × ℕ :=
  match e with
  | none => (none, 0)
  | some st => AddObjectInternal (some st) (lineObjFor start endP color width mode controls zIndex)

theorem foldl_min_spec (l : List ℚ) :
    ∀ a : ℚ, (l.foldl min a = a ∨ l.foldl min a ∈ l) ∧
      l.foldl min a ≤ a ∧ ∀ v ∈ l, l.foldl min a ≤ v := by
  induction l with
  | nil =>
    intro a
    refine ⟨.inl rfl, le_refl a, ?_⟩
    intro v hv
    simp at hv
  | cons b t ih =>
    intro a
    have hih := ih (min a b)
    have hstep : (b :: t).foldl min a = t.foldl min (min a b) := rfl
    rw [hstep]
    refine ⟨?_, ?_, ?_⟩
    · rcases hih.1 with h | h
      · rw [h]
        rcases le_total a b with hab | hab
        · exact .inl (min_eq_left hab)
        · exact .inr (by simp [min_eq_right hab])
      · exact .inr (List.mem_cons.mpr (.inr h))
    · exact le_trans hih.2.1 (min_le_left a b)
    · intro v hv
      rcases List.mem_cons.mp hv with rfl | hv
      · exact le_trans hih.2.1 (min_le_right a v)
      · exact hih.2.2 v hv

theorem foldl_max_spec (l : List ℚ) :
    ∀ a : ℚ, (l.foldl max a = a ∨ l.foldl max a ∈ l) ∧
      a ≤ l.foldl max a ∧ ∀ v ∈ l, v ≤ l.foldl max a := by
  induction l with
  | nil =>
    intro a
    refine ⟨.inl rfl, le_refl a, ?_⟩
    intro v hv
    simp at hv
  | cons b t ih =>
    intro a
    have hih := ih (max a b)
    have hstep : (b :: t).foldl max a = t.foldl max (max a b) := rfl
    rw [hstep]
    refine ⟨?_, ?_, ?_⟩
    · rcases hih.1 with h | h
      · rw [h]
        rcases le_total a b with hab | hab
        · exact .inr (by simp [max_eq_right hab])
        · exact .inl (max_eq_left hab)
      · exact .inr (List.mem_cons.mpr (.inr h))
    · exact le_trans (le_max_left a b) hih.2.1
    · intro v hv
      rcases List.mem_cons.mp hv with rfl | hv
      · exact le_trans (le_max_right a v) hih.2.1
      · exact hih.2.2 v hv

/-- v is the minimum of the list l. -/
def ListMin (l : List ℚ) (v : ℚ) : Prop := v ∈ l ∧ ∀ u ∈ l, v ≤ u

/-- v is the maximum of the list l. -/
def ListMax (l : List ℚ) (v : ℚ) : Prop := v ∈ l ∧ ∀ u ∈ l, u ≤ v

theorem lineObjFor_straight_bounds (start endP : Vec2) (color : Vec4) (width : ℚ)
    (controls : List Vec2) (zIndex : ℤ) :
    (lineObjFor start endP color width .Straight controls zIndex).bounds =
      ⟨(linePoints start endP controls).foldl (fun m p => min m p.x) start.x - width / 2,
       (linePoints start endP controls).foldl (fun m p => min m p.y) start.y - width / 2,
       (linePoints start endP controls).foldl (fun m p => max m p.x) start.x -
         (linePoints start endP controls).foldl (fun m p => min m p.x) start.x + width,
       (linePoints start endP controls).foldl (fun m p => max m p.y) start.y -
         (linePoints start endP controls).foldl (fun m p => min m p.y) start.y + width⟩ := rfl

theorem lineObjFor_straight_triCount (start endP : Vec2) (color : Vec4) (width : ℚ)
    (controls : List Vec2) (zIndex : ℤ) :
    (lineObjFor start endP color width .Straight controls zIndex).triCount =
      ((if (linePoints start endP controls).length > 1 then
          (linePoints start endP controls).length - 1 else 0 : ℕ) : ℤ) * 2 := rfl

theorem foldl_minx_eq (pts : List Vec2) (a : ℚ) :
    pts.foldl (fun m p => min m p.x) a = (pts.map (·.x)).foldl min a := by
  rw [List.foldl_map]

theorem foldl_maxx_eq (pts : List Vec2) (a : ℚ) :
    pts.foldl (fun m p => max m p.x) a = (pts.map (·.x)).foldl max a := by
  rw [List.foldl_map]

theorem foldl_miny_eq (pts : List Vec2) (a : ℚ) :
    pts.foldl (fun m p => min m p.y) a = (pts.map (·.y)).foldl min a := by
  rw [List.foldl_map]

theorem foldl_maxy_eq (pts : List Vec2) (a : ℚ) :
    pts.foldl (fun m p => max m p.y) a = (pts.map (·.y)).foldl max a := by
  rw [List.foldl_map]

theorem listMin_foldl (l : List ℚ) (a : ℚ) (ha : a ∈ l) : ListMin l (l.foldl min a) := by
  obtain ⟨hmem, hle, hall⟩ := foldl_min_spec l a
  constructor
  · rcases hmem with h | h
    · rw [h]
      exact ha
    · exact h
  · exact hall

theorem listMax_foldl (l : List ℚ) (a : ℚ) (ha : a ∈ l) : ListMax l (l.foldl max a) := by
  obtain ⟨hmem, hle, hall⟩ := foldl_max_spec l a
  constructor
  · rcases hmem with h | h
    · rw [h]
      exact ha
    · exact h
  · exact hall

/-- C7: straight-line scenario and bounds formula.  addLine(start={0,0},
end={100,0}, width=4, Straight, no controls, z=0) on a fresh engine issues
id 1 with triCount = 2 and bounds = {-2,-2,104,4}; in general a straight
line's triangle count is 2 × max(0, pointCount − 1) and its bounds are the
min/max extent of its points expanded by half the stroke width on every
side. -/
theorem c7_straight_line :
    ((FindObject (DuckerNative_AddLine (some (initRendererState 800 600))
        ⟨0, 0⟩ ⟨100, 0⟩ ⟨1, 1, 1, 1⟩ 4 .Straight [] 0).1 1).map (fun o => o.triCount) =
      some 2 ∧
     (FindObject (DuckerNative_AddLine (some (initRendererState 800 600))
        ⟨0, 0⟩ ⟨100, 0⟩ ⟨1, 1, 1, 1⟩ 4 .Straight [] 0).1 1).map (fun o => o.bounds) =
      some ⟨-2, -2, 104, 4⟩) ∧
    (∀ (start endP : Vec2) (color : Vec4) (width : ℚ) (controls : List Vec2) (zIndex : ℤ),
      (lineObjFor start endP color width .Straight controls zIndex).triCount =
        2 * max 0 (((linePoints start endP controls).length : ℤ) - 1) ∧
      ListMin ((linePoints start endP controls).map (·.x))
        ((lineObjFor start endP color width .Straight controls zIndex).bounds.x + width / 2) ∧
      ListMin ((linePoints start endP controls).map (·.y))
        ((lineObjFor start endP color width .Straight controls zIndex).bounds.y + width / 2) ∧
      ListMax ((linePoints start endP controls).map (·.x))
        ((lineObjFor start endP color width .Straight controls zIndex).bounds.x +
          (lineObjFor start endP color width .Straight controls zIndex).bounds.w - width / 2) ∧
      ListMax ((linePoints start endP controls).map (·.y))
        ((lineObjFor start endP color width .Straight controls zIndex).bounds.y +
          (lineObjFor start endP color width .Straight controls zIndex).bounds.h - width / 2)) := by
  constructor
  · constructor
    · decide
    · decide
  · intro start endP color width controls zIndex
    have hlen : (linePoints start endP controls).length = controls.length + 2 := by
      simp [linePoints]
    have hxs : start.x ∈ (linePoints start endP controls).map (·.x) :=
      List.mem_map.mpr ⟨start, by simp [linePoints], rfl⟩
    have hys : start.y ∈ (linePoints start endP controls).map (·.y) :=
      List.mem_map.mpr ⟨start, by simp [linePoints], rfl⟩
    refine ⟨?_, ?_, ?_, ?_, ?_⟩
    · rw [lineObjFor_straight_triCount, hlen, if_pos (by omega)]
      have hmax : max 0 (((controls.length + 2 : ℕ) : ℤ) - 1) = ((controls.length + 2 : ℕ) : ℤ) - 1 := by
        apply max_eq_right
        push_cast
        omega
      rw [hmax]
      push_cast
      ring
    · rw [lineObjFor_straight_bounds]
      have : (linePoints start endP controls).foldl (fun m p => min m p.x) start.x -
          width / 2 + width / 2 =
          (linePoints start endP controls).foldl (fun m p => min m p.x) start.x := by ring
      rw [this, foldl_minx_eq]
      exact listMin_foldl _ _ hxs
    · rw [lineObjFor_straight_bounds]
      have : (linePoints start endP controls).foldl (fun m p => min m p.y) start.y -
          width / 2 + width / 2 =
          (linePoints start endP controls).foldl (fun m p => min m p.y) start.y := by ring
      rw [this, foldl_miny_eq]
      exact listMin_foldl _ _ hys
    · rw [lineObjFor_straight_bounds]
      have : (linePoints start endP controls).foldl (fun m p => min m p.x) start.x -
          width / 2 +
          ((linePoints start endP controls).foldl (fun m p => max m p.x) start.x -
            (linePoints start endP controls).foldl (fun m p => min m p.x) start.x + width) -
          width / 2 =
          (linePoints start endP controls).foldl (fun m p => max m p.x) start.x := by ring
      rw [this, foldl_maxx_eq]
      exact listMax_foldl _ _ hxs
    · rw [lineObjFor_straight_bounds]
      have : (linePoints start endP controls).foldl (fun m p => min m p.y) start.y -
          width / 2 +
          ((linePoints start endP controls).foldl (fun m p => max m p.y) start.y -
            (linePoints start endP controls).foldl (fun m p => min m p.y) start.y + width) -
          width / 2 =
          (linePoints start endP controls).foldl (fun m p => max m p.y) start.y := by ring
      rw [this, foldl_maxy_eq]
      exact listMax_foldl _ _ hys

/-- sigma = blurRadius / 3.0f from ApplyGaussianBlurAndComposite. -/
def gaussSigma (blurRadius : ℚ) : ℚ := blurRadius / 3

/-- halfKernel = std::max(1, std::min(15, static_cast<int>(sigma * 3.0f))).
The int cast truncates toward zero; the blur path runs only for
blurRadius > 0, where sigma * 3 > 0 and truncation coincides with the
floor. -/
def gaussHalfKernel (blurRadius : ℚ) : ℤ :=
  max 1 (min 15 (Rat.floor (gaussSigma blurRadius * 3)))

/-- Unnormalized Gaussian tap weight
expf(-x·x / (2·sigma·sigma)) / (sqrtf(2·3.1415926535f)·sigma) from
ApplyGaussianBlurAndComposite (the C++ π literal kept verbatim). -/
noncomputable def gaussWeight (sigma : ℝ) (i : ℕ) : ℝ :=
  Real.exp (-((i : ℝ) * i) / (2 * sigma * sigma)) /
    (Real.sqrt (2 * (31415926535 / 10000000000)) * sigma)

/-- The normalization accumulator: sum += weights[i] * (i == 0 ? 1 : 2). -/
noncomputable def gaussWeightSum (sigma : ℝ) (halfKernel : ℕ) : ℝ :=
  ∑ i in Finset.range (halfKernel + 1), gaussWeight sigma i * (if i = 0 then 1 else 2)

/-- The normalized tap weight: w /= sum. -/
noncomputable def gaussNormWeight (sigma : ℝ) (halfKernel i : ℕ) : ℝ :=
  gaussWeight sigma i / gaussWeightSum sigma halfKernel

/-- The full symmetric kernel sum realized by the two blur shaders: the
center weight plus two times each side tap. -/
noncomputable def gaussFullKernelSum (sigma : ℝ) (halfKernel : ℕ) : ℝ :=
  gaussNormWeight sigma halfKernel 0 +
    2 * ∑ i in Finset.Icc 1 halfKernel, gaussNormWeight sigma halfKernel i

theorem gaussWeight_pos (sigma : ℝ) (hs : 0 < sigma) (i : ℕ) : 0 < gaussWeight sigma i := by
  unfold gaussWeight
  apply div_pos (Real.exp_pos _)
  apply mul_pos _ hs
  apply Real.sqrt_pos.mpr
  norm_num

theorem gaussWeightSum_eq (sigma : ℝ) (h : ℕ) :
    gaussWeightSum sigma h =
      gaussWeight sigma 0 + 2 * ∑ i in Finset.Icc 1 h, gaussWeight sigma i := by
  unfold gaussWeightSum
  rw [Finset.sum_range_succ']
  have h1 : ∑ i in Finset.Icc 1 h, gaussWeight sigma i =
      ∑ i in Finset.range h, gaussWeight sigma (1 + i) := by
    rw [show Finset.Icc 1 h = Finset.Ico 1 (h + 1) from rfl]
    rw [Finset.sum_Ico_eq_sum_range]
    simp
  rw [h1, Finset.mul_sum]
  have h2 : ∀ i ∈ Finset.range h,
      gaussWeight sigma (i + 1) * (if i + 1 = 0 then (1 : ℝ) else 2) =
        2 * gaussWeight sigma (1 + i) := by
    intro i _
    rw [if_neg (by omega)]
    rw [add_comm 1 i]
    ring
  rw [Finset.sum_congr rfl h2]
  simp
  ring

theorem gaussWeightSum_pos (sigma : ℝ) (hs : 0 < sigma) (h : ℕ) :
    0 < gaussWeightSum sigma h := by
  rw [gaussWeightSum_eq]
  have h0 := gaussWeight_pos sigma hs 0
  have h1 : (0 : ℝ) ≤ ∑ i in Finset.Icc 1 h, gaussWeight sigma i :=
    Finset.sum_nonneg fun i _ => le_of_lt (gaussWeight_pos sigma hs i)
  linarith

theorem gaussFullKernelSum_eq_one (sigma : ℝ) (hs : 0 < sigma) (h : ℕ) :
    gaussFullKernelSum sigma h = 1 := by
  have hS := gaussWeightSum_pos sigma hs h
  have hSne : gaussWeightSum sigma h ≠ 0 := ne_of_gt hS
  unfold gaussFullKernelSum gaussNormWeight
  rw [← Finset.sum_div, ← mul_div_assoc, div_add_div_same, ← gaussWeightSum_eq,
    div_self hSne]

/-- C4 counterexample: the claimed tap-count formula uses round, the code
truncates.  At blur radius 1.7, sigma = 17/30, the code computes
max(1, min(15, (int)(sigma·3))) = trunc(1.7) = 1, while
clamp(round(3·sigma), 1, 15) = round(1.7) = 2. -/
theorem c4_tapcount_not_round :
    ¬(gaussHalfKernel (17/10) =
        max 1 (min 15 (round (3 * gaussSigma (17/10))))) := by
  have h1 : gaussHalfKernel (17/10) = 1 := by decide
  have h2 : max 1 (min 15 (round (3 * gaussSigma (17/10)))) = 2 := by
    unfold gaussSigma
    norm_num [round_eq]
  rw [h1, h2]
  decide

/-- C4 (amended): for every blur radius > 0, the kernel uses
sigma = radius/3, a half-kernel tap count clamp(trunc(3·sigma), 1, 15)
(truncation toward zero, not rounding — for the in-range radii this equals
clamp(⌊radius⌋, 1, 15)), and after normalization the full symmetric kernel
— center weight plus two times each side tap — sums to exactly 1 in the
exact-real model of the float arithmetic. -/
theorem c4_kernel_amended (blurRadius : ℚ) (h : 0 < blurRadius) :
    gaussSigma blurRadius = blurRadius / 3 ∧
    gaussHalfKernel blurRadius = max 1 (min 15 (Rat.floor blurRadius)) ∧
    gaussFullKernelSum ((gaussSigma blurRadius : ℚ) : ℝ)
      (gaussHalfKernel blurRadius).toNat = 1 := by
  refine ⟨rfl, ?_, ?_⟩
  · unfold gaussHalfKernel gaussSigma
    rw [div_mul_cancel₀ blurRadius (by norm_num : (3 : ℚ) ≠ 0)]
  · apply gaussFullKernelSum_eq_one
    unfold gaussSigma
    push_cast
    positivity

/-- C4 witness: the amended statement at blur radius 3 (the Ambient layer
radius of elevation preset 1). -/
theorem c4_kernel_amended_witness :
    (0 : ℚ) < 3 ∧
    (gaussSigma 3 = 3 / 3 ∧
      gaussHalfKernel 3 = max 1 (min 15 (Rat.floor 3)) ∧
      gaussFullKernelSum ((gaussSigma 3 : ℚ) : ℝ) (gaussHalfKernel 3).toNat = 1) :=
  ⟨by decide, c4_kernel_amended 3 (by decide)⟩

/-- operator[] assignment on an object's name→uniform std::map. -/
def uinsert (m : List (String × UniformValue)) (k : String) (v : UniformValue) :
    List (String × UniformValue) :=
  (k, v) :: m.filter (fun p => p.1 != k)

/-- DuckerNative_AddRect from DuckerNative.cpp. -/
def DuckerNative_AddRect (e : Engine) (bounds : RectF) (color : Vec4) (zIndex : ℤ)
    (textureId : ℕ) (uvRect : RectF) (borderWidth : ℚ) (borderColor : Vec4) :
    Engine × ℕ :=
  let obj : RenderObject :=
    { type := .Rect
      bounds := bounds
      color := color
      zIndex := zIndex
      textureId := textureId
      uvRect := uvRect
      borderWidth := borderWidth
      borderColor := borderColor
      rotation := 0
      rotationOrigin := ⟨1/2, 1/2⟩
      uniforms := uinsert (uinsert [] "borderWidth" (.ufloat borderWidth))
        "borderColor" (.uvec4 borderColor) }
  AddObjectInternal e obj

/-- DuckerNative_AddRoundedRect from DuckerNative.cpp. -/
def DuckerNative_AddRoundedRect (e : Engine) (bounds : RectF) (shapeSize : Vec2)
    (color : Vec4) (cornerRadius blur : ℚ) (inset : Bool) (zIndex : ℤ)
    (textureId : ℕ) (uvRect : RectF) (borderWidth : ℚ) (borderColor : Vec4) :
    Engine × ℕ :=
  let obj : RenderObject :=
    { type := .RoundedRect
      bounds := bounds
      color := color
      zIndex := zIndex
      textureId := textureId
      uvRect := uvRect
      borderWidth := borderWidth
      borderColor := borderColor
      rotation := 0
      rotationOrigin := ⟨1/2, 1/2⟩
      uniforms :=
        uinsert (uinsert (uinsert (uinsert (uinsert (uinsert (uinsert []
          "quadSize" (.uvec2 ⟨bounds.w, bounds.h⟩))
          "shapeSize" (.uvec2 shapeSize))
          "cornerRadius" (.ufloat cornerRadius))
          "blur" (.ufloat blur))
          "inset" (.uint (if inset then 1 else 0)))
          "borderWidth" (.ufloat borderWidth))
          "borderColor" (.uvec4 borderColor) }
  AddObjectInternal e obj

/-- DuckerNative_AddCircle from DuckerNative.cpp. -/
def DuckerNative_AddCircle (e : Engine) (bounds : RectF) (color : Vec4)
    (radius blur : ℚ) (inset : Bool) (zIndex : ℤ) (textureId : ℕ)
    (borderWidth : ℚ) (borderColor : Vec4) : Engine × ℕ :=
  let obj : RenderObject :=
    { type := .Circle
      bounds := bounds
      color := color
      zIndex := zIndex
      textureId := textureId
      borderWidth := borderWidth
      borderColor := borderColor
      rotation := 0
      rotationOrigin := ⟨1/2, 1/2⟩
      uniforms :=
        uinsert (uinsert (uinsert (uinsert (uinsert []
          "shapeRadius" (.ufloat radius))
          "blur" (.ufloat blur))
          "inset" (.uint (if inset then 1 else 0)))
          "borderWidth" (.ufloat borderWidth))
          "borderColor" (.uvec4 borderColor) }
  AddObjectInternal e obj

/-- In-place mutation of the object FindObject resolves (no-op when the id
is unmapped). -/
def modifyObjectS (s : RendererState) (objectId : ℕ)
    (f : RenderObject → RenderObject) : RendererState :=
  match mfind s.objectIdToIndex objectId with
  | none => s
  | some index =>
    { s with objects := s.objects.set index (f (s.objects.getD index default)) }

/-- DuckerNative_SetObjectCornerRadius: RoundedRect only, else no-op. -/
def DuckerNative_SetObjectCornerRadius (e : Engine) (objectId : ℕ) (radius : ℚ) :
    Engine :=
  match e with
  | none => none
  | some s =>
    some (modifyObjectS s objectId (fun obj =>
      if obj.type ≠ ObjectType.RoundedRect then obj
      else { obj with uniforms := uinsert obj.uniforms "cornerRadius" (.ufloat radius) }))

/-- DuckerNative_SetObjectRotation from DuckerNative.cpp. -/
def DuckerNative_SetObjectRotation (e : Engine) (objectId : ℕ) (rotation : ℚ) :
    Engine :=
  match e with
  | none => none
  | some s => some (modifyObjectS s objectId (fun obj => { obj with rotation := rotation }))

/-- DuckerNative_SetObjectRotationOrigin from DuckerNative.cpp. -/
def DuckerNative_SetObjectRotationOrigin (e : Engine) (objectId : ℕ) (origin : Vec2) :
    Engine :=
  match e with
  | none => none
  | some s =>
    some (modifyObjectS s objectId (fun obj => { obj with rotationOrigin := origin }))

/-- DuckerNative_SetObjectRotationAndOrigin from DuckerNative.cpp. -/
def DuckerNative_SetObjectRotationAndOrigin (e : Engine) (objectId : ℕ)
    (rotation : ℚ) (origin : Vec2) : Engine :=
  match e with
  | none => none
  | some s =>
    some (modifyObjectS s objectId
      (fun obj => { obj with rotation := rotation, rotationOrigin := origin }))

/-- DuckerNative_SetObjectElevation: also marks the pool dirty (shadows
affect draw order) — but only when the object exists. -/
def DuckerNative_SetObjectElevation (e : Engine) (objectId : ℕ) (elevation : ℤ) :
    Engine :=
  match e with
  | none => none
  | some s =>
    match mfind s.objectIdToIndex objectId with
    | none => some s
    | some index =>
      some { s with
          objects := s.objects.set index
            { s.objects.getD index default with elevation := elevation }
          needsSort := true }

/-- DuckerNative_SetObjectShader: marks the pool dirty only on change. -/
def DuckerNative_SetObjectShader (e : Engine) (objectId : ℕ) (shaderId : ℕ) :
    Engine :=
  match e with
  | none => none
  | some s =>
    match mfind s.objectIdToIndex objectId with
    | none => some s
    | some index =>
      let obj := s.objects.getD index default
      if obj.shaderId ≠ shaderId then
        some { s with
            objects := s.objects.set index { obj with shaderId := shaderId }
            needsSort := true }
      else some s

/-- DuckerNative_SetObjectUniform from DuckerNative.cpp (the UniformType tag
and raw bytes arrive as one typed payload; every tag has size > 0, so the
write always happens when the object exists). -/
def DuckerNative_SetObjectUniform (e : Engine) (objectId : ℕ) (name : String)
    (val : UniformValue) : Engine :=
  match e with
  | none => none
  | some s =>
    some (modifyObjectS s objectId
      (fun obj => { obj with uniforms := uinsert obj.uniforms name val }))

/-- DuckerNative_SetObjectBorder from DuckerNative.cpp. -/
def DuckerNative_SetObjectBorder (e : Engine) (objectId : ℕ) (borderWidth : ℚ)
    (borderColor : Vec4) : Engine :=
  match e with
  | none => none
  | some s =>
    some (modifyObjectS s objectId (fun obj =>
      { obj with
          borderWidth := borderWidth
          borderColor := borderColor
          uniforms := uinsert (uinsert obj.uniforms "borderWidth" (.ufloat borderWidth))
            "borderColor" (.uvec4 borderColor) }))

/-- Lookup in the fontId→Font std::map. -/
def ffind (m : List (ℕ × Font)) (k : ℕ) : Option Font :=
  match m with
  | [] => none
  | (k', v) :: rest => if k' = k then some v else ffind rest k

/-- DuckerNative_LoadFont from DuckerNative.cpp: the file read and
stb_truetype atlas packing are external; `packed` is none when fopen /
stbtt_PackBegin / stbtt_PackFontRanges fails, otherwise the resulting
Font (size, atlas texture handle, 4096×4096 atlas). -/
def DuckerNative_LoadFont (e : Engine) (packed : Option Font) : Engine × ℕ :=
  match e with
  | none => (none, 0)
  | some s =>
    match packed with
    | none => (some s, 0)
    | some font =>
      let fontId := s.nextFontId
      (some { s with nextFontId := s.nextFontId + 1, fonts := (fontId, font) :: s.fonts },
        fontId)

/-- DuckerNative_DeleteFont from DuckerNative.cpp. -/
def DuckerNative_DeleteFont (e : Engine) (fontId : ℕ) : Engine :=
  match e with
  | none => none
  | some s => some { s with fonts := s.fonts.filter (fun p => p.1 != fontId) }

/-- DuckerNative_CreateShader from DuckerNative.cpp: `progId` is the GL
program handle CreateShaderProgramInternal returns (0 on compile/link
failure). -/
def DuckerNative_CreateShader (e : Engine) (progId : ℕ) : Engine × ℕ :=
  match e with
  | none => (none, 0)
  | some s =>
    if progId = 0 then (some s, 0)
    else
      let id := s.nextCustomShaderId
      (some { s with
          nextCustomShaderId := s.nextCustomShaderId + 1
          shaders := (id, progId) :: s.shaders }, id)

/-- DuckerNative_DeleteShader: ids < 100 are built-ins, protected. -/
def DuckerNative_DeleteShader (e : Engine) (shaderId : ℕ) : Engine :=
  match e with
  | none => none
  | some s =>
    if shaderId < 100 then some s
    else some { s with shaders := s.shaders.filter (fun p => p.1 != shaderId) }

/-- DuckerNative_SetScreenSize from DuckerNative.cpp (projection matrix and
FBO resize are GL-side). -/
def DuckerNative_SetScreenSize (e : Engine) (screenWidth screenHeight : ℤ) : Engine :=
  match e with
  | none => none
  | some s => some { s with screenWidth := screenWidth, screenHeight := screenHeight }

/-- The stb_image decode result: width, height, channel count. -/
structure ImageInfo where
  width : ℤ
  height : ℤ
  nrChannels : ℤ
deriving DecidableEq, Repr

/-- DuckerNative_LoadTexture from DuckerNative.cpp.  NOTE — unlike every
other entry point, this function contains no `state == nullptr` guard: it
calls stbi_load (the `decoded` oracle) and creates a GL texture (fresh
handle `freshTextureId`, nonzero) whether or not the engine is
initialized, and returns the GL handle with the decoded dimensions, or 0
with no dimensions on decode failure.  The engine state passes through
untouched in all cases (GL textures live outside RendererState). -/
def DuckerNative_LoadTexture (e : Engine) (decoded : Option ImageInfo)
    (freshTextureId : ℕ) : Engine × ℕ × Option (ℤ × ℤ) :=
  match decoded with
  | none => (e, 0, none)
  | some img => (e, freshTextureId, some (img.width, img.height))

/-- DuckerNative_DeleteTexture: also unguarded in the C++ (it only checks
textureId > 0 before glDeleteTextures); it never touches the scene state. -/
def DuckerNative_DeleteTexture (e : Engine) (_textureId : ℕ) : Engine := e

/-- utf8_to_codepoint from DuckerNative.cpp on a byte sequence: returns the
decoded codepoint and the number of bytes consumed (1, 2, 3 or 4).
Continuation bytes past the end of the buffer read as 0 (the C string's
NUL terminator region). -/
def utf8_to_codepoint (s : List ℕ) : ℕ × ℕ :=
  let s0 := s.getD 0 0
  let s1 := s.getD 1 0
  let s2 := s.getD 2 0
  let s3 := s.getD 3 0
  if s0 < 0x80 then (s0, 1)
  else if s0 &&& 0xe0 = 0xc0 then (((s0 &&& 0x1f) <<< 6) ||| (s1 &&& 0x3f), 2)
  else if s0 &&& 0xf0 = 0xe0 then
    (((s0 &&& 0x0f) <<< 12) ||| ((s1 &&& 0x3f) <<< 6) ||| (s2 &&& 0x3f), 3)
  else if s0 &&& 0xf8 = 0xf0 then
    (((s0 &&& 0x07) <<< 18) ||| ((s1 &&& 0x3f) <<< 12) ||| ((s2 &&& 0x3f) <<< 6) |||
      (s3 &&& 0x3f), 4)
  else (63, 1)

theorem utf8_consumed_pos (s : List ℕ) : 1 ≤ (utf8_to_codepoint s).2 := by
  unfold utf8_to_codepoint
  dsimp only
  split_ifs <;> simp

/-- The codepoint sequence the DrawText/GetTextSize while-loop decodes: one
utf8_to_codepoint step per iteration until the NUL byte or the end of the
buffer. -/
def decodedCodepoints (s : List ℕ) : List ℕ :=
  match s with
  | [] => []
  | b :: rest =>
    if b = 0 then []
    else
      (utf8_to_codepoint (b :: rest)).1 ::
        decodedCodepoints ((b :: rest).drop (utf8_to_codepoint (b :: rest)).2)
termination_by s.length
decreasing_by
  simp only [List.length_drop, List.length_cons]
  have := utf8_consumed_pos (b :: rest)
  omega

/-- The glyph-table index of a codepoint: ASCII 32..127 maps to the first
96 slots, Cyrillic U+0400..U+04FF to the next 256; anything else has no
glyph (int index stays -1 and the loop emits nothing). -/
def glyphIndex (codepoint : ℕ) : Option ℕ :=
  if 32 ≤ codepoint ∧ codepoint < 128 then some (codepoint - 32)
  else if 0x400 ≤ codepoint ∧ codepoint ≤ 0x4FF then some (96 + (codepoint - 0x400))
  else none

/-- The data stbtt_GetPackedQuad produces for one glyph: quad corners,
texture coordinates and the advanced pen position. -/
structure PackedQuad where
  x0 : ℚ
  y0 : ℚ
  x1 : ℚ
  y1 : ℚ
  s0 : ℚ
  t0 : ℚ
  s1 : ℚ
  t1 : ℚ
  xNew : ℚ
  yNew : ℚ
deriving DecidableEq, Repr, Inhabited

/-- The Glyph RenderObject DuckerNative_DrawText builds for one quad.
cos_a/sin_a are cosf/sinf of the rotation angle (libm externals, oracle
inputs computed once per call in the C++). -/
def drawTextGlyph (font : Font) (q : PackedQuad) (position origin : Vec2)
    (color : Vec4) (zIndex : ℤ) (cos_a sin_a : ℚ) : RenderObject :=
  let rot_x0 := q.x0 - position.x - origin.x
  let rot_y0 := q.y0 - position.y - origin.y
  let rot_x1 := q.x1 - position.x - origin.x
  let rot_y1 := q.y1 - position.y - origin.y
  let v0 : Vec2 := ⟨rot_x0 * cos_a - rot_y0 * sin_a + position.x + origin.x,
                    rot_x0 * sin_a + rot_y0 * cos_a + position.y + origin.y⟩
  let v1 : Vec2 := ⟨rot_x1 * cos_a - rot_y0 * sin_a + position.x + origin.x,
                    rot_x1 * sin_a + rot_y0 * cos_a + position.y + origin.y⟩
  let v2 : Vec2 := ⟨rot_x1 * cos_a - rot_y1 * sin_a + position.x + origin.x,
                    rot_x1 * sin_a + rot_y1 * cos_a + position.y + origin.y⟩
  let v3 : Vec2 := ⟨rot_x0 * cos_a - rot_y1 * sin_a + position.x + origin.x,
                    rot_x0 * sin_a + rot_y1 * cos_a + position.y + origin.y⟩
  { type := .Glyph
    bounds := ⟨v0.x, v0.y, v1.x - v0.x, v3.y - v0.y⟩
    uvRect := ⟨q.s0, q.t0, q.s1, q.t1⟩
    uniforms := uinsert (uinsert (uinsert (uinsert []
      "v0" (.uvec2 v0)) "v1" (.uvec2 v1)) "v2" (.uvec2 v2)) "v3" (.uvec2 v3)
    color := color
    zIndex := zIndex
    textureId := font.textureId }

/-- The DrawText while-loop: decode a codepoint, look up its glyph slot,
and — only for supported codepoints — fetch the packed quad (advancing the
pen) and AddObjectInternal one Glyph object.  `quadOf index (x, y)` is the
stbtt_GetPackedQuad oracle. -/
def drawTextLoop (font : Font) (quadOf : ℕ → ℚ × ℚ → PackedQuad)
    (position origin : Vec2) (color : Vec4) (zIndex : ℤ) (cos_a sin_a : ℚ)
    (s : RendererState) (pen : ℚ × ℚ) (bytes : List ℕ) : RendererState :=
  match bytes with
  | [] => s
  | b :: rest =>
    if b = 0 then s
    else
      let d := utf8_to_codepoint (b :: rest)
      let remaining := (b :: rest).drop d.2
      match glyphIndex d.1 with
      | none => drawTextLoop font quadOf position origin color zIndex cos_a sin_a s pen remaining
      | some index =>
        let q := quadOf index pen
        let s' := (addObj s (drawTextGlyph font q position origin color zIndex cos_a sin_a)).1
        drawTextLoop font quadOf position origin color zIndex cos_a sin_a s' (q.xNew, q.yNew) remaining
termination_by bytes.length
decreasing_by
  all_goals
    simp only [List.length_drop, List.length_cons]
    have := utf8_consumed_pos (b :: rest)
    omega

/-- DuckerNative_DrawText from DuckerNative.cpp: no-op when the engine is
uninitialized or the font id is unknown; otherwise one Glyph object per
decoded codepoint that has a glyph slot. -/
def DuckerNative_DrawText (e : Engine) (quadOf : ℕ → ℚ × ℚ → PackedQuad)
    (fontId : ℕ) (text : List ℕ) (position : Vec2) (color : Vec4) (zIndex : ℤ)
    (cos_a sin_a : ℚ) (origin : Vec2) : Engine :=
  match e with
  | none => none
  | some s =>
    match ffind s.fonts fontId with
    | none => some s
    | some font =>
      some (drawTextLoop font quadOf position origin color zIndex cos_a sin_a s
        (position.x, position.y) text)

theorem addObj_appends (s : RendererState) (o : RenderObject) :
    ∃ o' : RenderObject, (addObj s o).1.objects = s.objects ++ [o'] ∧ o'.type = o.type :=
  ⟨_, rfl, rfl⟩

theorem drawTextLoop_spec (font : Font) (quadOf : ℕ → ℚ × ℚ → PackedQuad)
    (position origin : Vec2) (color : Vec4) (zIndex : ℤ) (cos_a sin_a : ℚ) :
    ∀ (n : ℕ) (bytes : List ℕ), bytes.length ≤ n → ∀ (s : RendererState) (pen : ℚ × ℚ),
      ∃ glyphs : List RenderObject,
        (drawTextLoop font quadOf position origin color zIndex cos_a sin_a s pen bytes).objects =
          s.objects ++ glyphs ∧
        glyphs.length =
          ((decodedCodepoints bytes).filter (fun cp => (glyphIndex cp).isSome)).length ∧
        ∀ g ∈ glyphs, g.type = ObjectType.Glyph := by
  intro n
  induction n with
  | zero =>
    intro bytes hlen s pen
    have hnil : bytes = [] := List.length_eq_zero.mp (by omega)
    subst hnil
    exact ⟨[], by simp [drawTextLoop], by simp [decodedCodepoints], by simp⟩
  | succ n ih =>
    intro bytes hlen s pen
    match bytes with
    | [] => exact ⟨[], by simp [drawTextLoop], by simp [decodedCodepoints], by simp⟩
    | b :: rest =>
      by_cases hb : b = 0
      · subst hb
        refine ⟨[], ?_, ?_, by simp⟩
        · rw [drawTextLoop]
          simp
        · rw [decodedCodepoints]
          simp
      · have hrem : ((b :: rest).drop (utf8_to_codepoint (b :: rest)).2).length ≤ n := by
          have hcons := utf8_consumed_pos (b :: rest)
          simp only [List.length_drop, List.length_cons]
          simp only [List.length_cons] at hlen
          omega
        have hdec : decodedCodepoints (b :: rest) =
            (utf8_to_codepoint (b :: rest)).1 ::
              decodedCodepoints ((b :: rest).drop (utf8_to_codepoint (b :: rest)).2) := by
          rw [decodedCodepoints]
          rw [if_neg hb]
        cases hgi : glyphIndex (utf8_to_codepoint (b :: rest)).1 with
        | none =>
          obtain ⟨glyphs, h1, h2, h3⟩ := ih _ hrem s pen
          refine ⟨glyphs, ?_, ?_, h3⟩
          · rw [drawTextLoop, if_neg hb]
            dsimp only
            rw [hgi]
            exact h1
          · rw [hdec]
            simp only [List.filter_cons, hgi, Option.isSome_none]
            exact h2
        | some index =>
          obtain ⟨o', ho1, ho2⟩ := addObj_appends s
            (drawTextGlyph font (quadOf index pen) position origin color zIndex cos_a sin_a)
          obtain ⟨glyphs, h1, h2, h3⟩ := ih _ hrem
            (addObj s (drawTextGlyph font (quadOf index pen) position origin color zIndex
              cos_a sin_a)).1
            ((quadOf index pen).xNew, (quadOf index pen).yNew)
          refine ⟨o' :: glyphs, ?_, ?_, ?_⟩
          · rw [drawTextLoop, if_neg hb]
            dsimp only
            rw [hgi]
            rw [h1, ho1]
            simp
          · rw [hdec]
            simp [List.filter_cons, hgi]
            omega
          · intro g hg
            rcases List.mem_cons.mp hg with rfl | hg
            · rw [ho2]
              rfl
            · exact h3 g hg

/-- An engine with one loaded font (id 1, atlas texture handle 42). -/
def c9FontState : RendererState :=
  { initRendererState 800 600 with fonts := [(1, { size := 16, textureId := 42 })] }

/-- A concrete stbtt_GetPackedQuad oracle for the DrawText runs. -/
def c9Quad : ℕ → ℚ × ℚ → PackedQuad := fun _ _ => ⟨0, 0, 8, 8, 0, 0, 1, 1, 8, 0⟩

/-- C9 counterexample: drawText on the loaded font with the one-codepoint
text "\n" (codepoint 10, outside both the ASCII 32..127 and Cyrillic
U+0400..U+04FF ranges) emits no Glyph object at all — the scene state is
unchanged although exactly one codepoint was decoded, so the claimed
one-glyph-per-decoded-codepoint emission fails. -/
theorem c9_not_per_codepoint :
    DuckerNative_DrawText (some c9FontState) c9Quad 1 [10] ⟨0, 0⟩ ⟨1, 1, 1, 1⟩ 0 1 0 ⟨0, 0⟩ =
      some c9FontState ∧
    (decodedCodepoints [10]).length = 1 ∧
    c9FontState.objects.length = 0 := by
  refine ⟨?_, ?_, rfl⟩
  · unfold DuckerNative_DrawText
    dsimp only
    have hf : ffind c9FontState.fonts 1 = some { size := 16, textureId := 42 } := rfl
    rw [hf]
    dsimp only
    rw [drawTextLoop.eq_def]
    norm_num [utf8_to_codepoint, glyphIndex]
    rw [drawTextLoop.eq_def]
  · rw [decodedCodepoints]
    norm_num [utf8_to_codepoint]
    rw [decodedCodepoints]

/-- C9 (amended): for every loaded font and every input byte string,
drawText appends exactly one Glyph object per decoded codepoint that falls
in a supported glyph range (ASCII 32..127 or Cyrillic U+0400..U+04FF);
codepoints outside those ranges are decoded but emit nothing. -/
theorem c9_drawtext_amended (quadOf : ℕ → ℚ × ℚ → PackedQuad) (s : RendererState)
    (fontId : ℕ) (font : Font) (text : List ℕ) (position : Vec2) (color : Vec4)
    (zIndex : ℤ) (cos_a sin_a : ℚ) (origin : Vec2)
    (hfont : ffind s.fonts fontId = some font) :
    ∃ glyphs : List RenderObject,
      (DuckerNative_DrawText (some s) quadOf fontId text position color zIndex
          cos_a sin_a origin).map (fun t => t.objects) = some (s.objects ++ glyphs) ∧
      glyphs.length =
        ((decodedCodepoints text).filter (fun cp => (glyphIndex cp).isSome)).length ∧
      ∀ g ∈ glyphs, g.type = ObjectType.Glyph := by
  obtain ⟨glyphs, h1, h2, h3⟩ := drawTextLoop_spec font quadOf position origin color zIndex
    cos_a sin_a text.length text (le_refl _) s (position.x, position.y)
  refine ⟨glyphs, ?_, h2, h3⟩
  unfold DuckerNative_DrawText
  dsimp only
  rw [hfont]
  simp [h1]

/-- C9 witness: drawing "A" (codepoint 65) appends exactly one Glyph. -/
theorem c9_drawtext_amended_witness :
    ffind c9FontState.fonts 1 = some { size := 16, textureId := 42 } ∧
    (∃ glyphs : List RenderObject,
      (DuckerNative_DrawText (some c9FontState) c9Quad 1 [65] ⟨0, 0⟩ ⟨1, 1, 1, 1⟩ 0 1 0
          ⟨0, 0⟩).map (fun t => t.objects) = some (c9FontState.objects ++ glyphs) ∧
      glyphs.length =
        ((decodedCodepoints [65]).filter (fun cp => (glyphIndex cp).isSome)).length ∧
      ∀ g ∈ glyphs, g.type = ObjectType.Glyph) :=
  ⟨rfl, c9_drawtext_amended c9Quad c9FontState 1 _ [65] ⟨0, 0⟩ ⟨1, 1, 1, 1⟩ 0 1 0 ⟨0, 0⟩ rfl⟩

/-- C8 counterexample: DuckerNative_LoadTexture has no initialization
guard.  Called on the uninitialized engine with an image that decodes
(2×2, RGBA) and a fresh GL texture handle 7, it returns texture id 7 — not
the zero sentinel the claim requires — after creating a GL texture. -/
theorem c8_loadtexture_unguarded :
    DuckerNative_LoadTexture none (some ⟨2, 2, 4⟩) 7 = (none, 7, some (2, 2)) ∧
    (7 : ℕ) ≠ 0 :=
  ⟨rfl, by decide⟩

/-- C8 (amended): every state-carrying entry point of the external
interface checks initialization — on the uninitialized engine it performs
no state change and returns the safe sentinel (zero id, null reference,
unchanged nothing) — with the exception of DuckerNative_LoadTexture (and
DuckerNative_DeleteTexture), which performs no initialization check at all:
its result is independent of the engine state and is the nonzero GL texture
handle whenever decoding succeeds (c8_loadtexture_unguarded). -/
theorem c8_uninitialized_amended :
    (∀ bounds color zIndex textureId uvRect bw bc,
      DuckerNative_AddRect none bounds color zIndex textureId uvRect bw bc = (none, 0)) ∧
    (∀ bounds shapeSize color cr blur inset zIndex textureId uvRect bw bc,
      DuckerNative_AddRoundedRect none bounds shapeSize color cr blur inset zIndex
        textureId uvRect bw bc = (none, 0)) ∧
    (∀ bounds color radius blur inset zIndex textureId bw bc,
      DuckerNative_AddCircle none bounds color radius blur inset zIndex textureId
        bw bc = (none, 0)) ∧
    (∀ start endP color width mode controls zIndex,
      DuckerNative_AddLine none start endP color width mode controls zIndex = (none, 0)) ∧
    (∀ obj, AddObjectInternal none obj = (none, 0)) ∧
    (∀ quadOf fontId text position color zIndex ca sa origin,
      DuckerNative_DrawText none quadOf fontId text position color zIndex ca sa
        origin = none) ∧
    (∀ id, DuckerNative_RemoveObject none id = none) ∧
    (∀ id, FindObject none id = none) ∧
    DuckerNative_Clear none = none ∧
    (∀ b, DuckerNative_BeginContainer none b = none) ∧
    DuckerNative_EndContainer none = none ∧
    DuckerNative_Render none = none ∧
    (∀ id r, DuckerNative_SetObjectCornerRadius none id r = none) ∧
    (∀ id r, DuckerNative_SetObjectRotation none id r = none) ∧
    (∀ id o, DuckerNative_SetObjectRotationOrigin none id o = none) ∧
    (∀ id r o, DuckerNative_SetObjectRotationAndOrigin none id r o = none) ∧
    (∀ id el, DuckerNative_SetObjectElevation none id el = none) ∧
    (∀ id sh, DuckerNative_SetObjectShader none id sh = none) ∧
    (∀ id nm v, DuckerNative_SetObjectUniform none id nm v = none) ∧
    (∀ id w c, DuckerNative_SetObjectBorder none id w c = none) ∧
    (∀ packed, DuckerNative_LoadFont none packed = (none, 0)) ∧
    (∀ id, DuckerNative_DeleteFont none id = none) ∧
    (∀ p, DuckerNative_CreateShader none p = (none, 0)) ∧
    (∀ id, DuckerNative_DeleteShader none id = none) ∧
    (∀ w h, DuckerNative_SetScreenSize none w h = none) ∧
    (∀ e₁ e₂ decoded tid,
      (DuckerNative_LoadTexture e₁ decoded tid).2 =
        (DuckerNative_LoadTexture e₂ decoded tid).2) := by
  refine ⟨fun _ _ _ _ _ _ _ => rfl, fun _ _ _ _ _ _ _ _ _ _ _ => rfl,
    fun _ _ _ _ _ _ _ _ _ => rfl, fun _ _ _ _ _ _ _ => rfl, fun _ => rfl,
    fun _ _ _ _ _ _ _ _ _ => rfl, fun _ => rfl, fun _ => rfl, rfl, fun _ => rfl,
    rfl, rfl, fun _ _ => rfl, fun _ _ => rfl, fun _ _ => rfl, fun _ _ _ => rfl,
    fun _ _ => rfl, fun _ _ => rfl, fun _ _ _ => rfl, fun _ _ _ => rfl,
    fun _ => rfl, fun _ => rfl, fun _ => rfl, fun _ => rfl, fun _ _ => rfl, ?_⟩
  intro e₁ e₂ decoded tid
  cases decoded <;> rfl
